import Mathlib

/-!
# NBT encoder: tag makers and `writeTag` (NBT.h, NBT.cpp)

Shallow embedding of the tag model and of the recursive binary encoder.

* Bytes, tag kinds and the output stream are naturals and lists of naturals
  (a byte is a natural below 256).  The stream `std::ostream& output` is passed
  explicitly: every writer takes the bytes already in the stream and returns the
  bytes in it afterwards.
* A C string (`const char*`) is represented by the list of the bytes that precede
  its terminating NUL.
* The untyped pointer `void* DATA` is represented by what it points at (`Data`).
* A result `none` marks an execution the model gives no result for: an index that
  runs out of the array it scans, a `write` with a negative count or a count past
  the end of its array, a read through an expired pointer, or a use of `DATA` as a
  pointer to an object of another type than the one it points at.
* The host is little-endian (`htons`, `htonl`, `htonll` swap bytes).
* `writeTagOnStack` and `writeDataContentOnStack` are the two writers run on a call
  stack with room for a given number of nested encoder calls; a run that needs more
  ends in `Outcome.stackExhausted`, any other run ends as the writers without stack
  bound say (`onStack_refines`).
-/

namespace NBT

/-! ## Tag types (NBT.h) -/

abbrev TYPE_END : Nat := 0
abbrev TYPE_BYTE : Nat := 1
abbrev TYPE_SHORT : Nat := 2
abbrev TYPE_INT : Nat := 3
abbrev TYPE_LONG : Nat := 4
abbrev TYPE_FLOAT : Nat := 5
abbrev TYPE_DOUBLE : Nat := 6
abbrev TYPE_BYTE_ARRAY : Nat := 7
abbrev TYPE_STRING : Nat := 8
abbrev TYPE_LIST : Nat := 9
abbrev TYPE_COMPOUND : Nat := 10

mutual
/-- The record `struct NBTtag { uint8_t TYPE; const char* NAME; void* DATA; int32_t ARRAY_LENGTH; }`. -/
inductive NBTtag where
  | mk (TYPE : Nat) (NAME : List Nat) (DATA : Data) (ARRAY_LENGTH : Int)
/-- The object a `void* DATA` points at. -/
inductive Data where
  /-- a `uint8_t` -/
  | u8 (v : Nat)
  /-- an `int16_t` -/
  | i16 (v : Int)
  /-- an `int32_t` -/
  | i32 (v : Int)
  /-- an `int64_t` -/
  | i64 (v : Int)
  /-- a `float`, given by its 32-bit pattern -/
  | f32 (bits : Nat)
  /-- a `double`, given by its 64-bit pattern -/
  | f64 (bits : Nat)
  /-- an array of `uint8_t` -/
  | bytes (buf : List Nat)
  /-- a variable of type `const char*`: `some s` while the variable is alive and
  points at the character array `s`, `none` once its lifetime has ended -/
  | cstr (slot : Option (List Nat))
  /-- an array of `NBTtag` -/
  | tags (arr : List NBTtag)
end

def NBTtag.TYPE : NBTtag → Nat
  | .mk ty _ _ _ => ty

def NBTtag.NAME : NBTtag → List Nat
  | .mk _ nm _ _ => nm

def NBTtag.DATA : NBTtag → Data
  | .mk _ _ d _ => d

def NBTtag.ARRAY_LENGTH : NBTtag → Int
  | .mk _ _ _ len => len

/-! ## Machine integers -/

/-- Conversion to `int16_t`. -/
def toInt16 (x : Int) : Int := (x + 32768) % 65536 - 32768

/-- Conversion to `UINT16`. -/
def toUInt16 (x : Int) : Nat := (x % 65536).toNat

/-- Conversion to `UINT32`. -/
def toUInt32 (x : Int) : Nat := (x % 4294967296).toNat

/-- Conversion to `UINT64`. -/
def toUInt64 (x : Int) : Nat := (x % 18446744073709551616).toNat

/-- The `n` bytes an unsigned value occupies in memory, lowest address first
(little-endian host). -/
def objectBytes : Nat → Nat → List Nat
  | 0, _ => []
  | n + 1, x => x % 256 :: objectBytes n (x / 256)

/-- The value of a byte sequence read most significant byte first. -/
def fromBigEndian (bs : List Nat) : Nat :=
  bs.foldl (fun acc b => acc * 256 + b) 0

/-- Function `htons` / `htobe16`: byte swap of a 16-bit value. -/
def htons (y : Nat) : Nat := fromBigEndian (objectBytes 2 y)

/-- Function `htonl` / `htobe32`: byte swap of a 32-bit value. -/
def htonl (y : Nat) : Nat := fromBigEndian (objectBytes 4 y)

/-- Function `htonll` / `htobe64`: byte swap of a 64-bit value. -/
def htonll (y : Nat) : Nat := fromBigEndian (objectBytes 8 y)

/-- The loop `while (s[length] != '\0') length++` with `int16_t length`.
The first argument holds the bytes of the string from index `length` on; the end
of the list is the terminating NUL.  When the increment wraps to a negative
`int16_t` the next read is before the start of the array: `none`. -/
def strlenInt16 : List Nat → Int → Option Int
  | [], length => some length
  | c :: rest, length =>
    if c = 0 then some length
    else
      let length1 := toInt16 (length + 1)
      if length1 < 0 then none else strlenInt16 rest length1

/-- Call `output.write(s, n)` for a caller-supplied array `s`: appends its first `n` bytes. -/
def write (output : List Nat) (s : List Nat) (n : Int) : Option (List Nat) :=
  if 0 ≤ n ∧ n ≤ s.length then some (output ++ s.take n.toNat) else none

/-! ## Maker functions (NBT.cpp 15-99) -/

def makeByteTag (name : List Nat) (data : Nat) : NBTtag :=
  .mk TYPE_BYTE name (.u8 data) 1

def makeShortTag (name : List Nat) (data : Int) : NBTtag :=
  .mk TYPE_SHORT name (.i16 data) 2

def makeIntTag (name : List Nat) (data : Int) : NBTtag :=
  .mk TYPE_INT name (.i32 data) 4

def makeLongTag (name : List Nat) (data : Int) : NBTtag :=
  .mk TYPE_LONG name (.i64 data) 8

def makeFloatTag (name : List Nat) (data : Nat) : NBTtag :=
  .mk TYPE_FLOAT name (.f32 data) 4

def makeDoubleTag (name : List Nat) (data : Nat) : NBTtag :=
  .mk TYPE_DOUBLE name (.f64 data) 8

def makeByteArrayTag (name : List Nat) (data : List Nat) (size : Int) : NBTtag :=
  .mk TYPE_BYTE_ARRAY name (.bytes data) size

/-- The maker stores `&data`, the address of its own parameter; that variable
is gone when the maker returns, so the tag holds an expired `const char*` slot. -/
def makeStringTag (name : List Nat) (data : List Nat) : Option NBTtag :=
  match strlenInt16 data 0 with
  | none => none
  | some length => some (.mk TYPE_STRING name (.cstr none) length)

def makeListTag (name : List Nat) (data : List NBTtag) (size : Int) : NBTtag :=
  .mk TYPE_LIST name (.tags data) size

def makeCompoundTag (name : List Nat) (data : List NBTtag) (size : Int) : NBTtag :=
  .mk TYPE_COMPOUND name (.tags data) size

/-! ## Writer functions (NBT.cpp 102-194) -/

/-- Case `TYPE_BYTE` of `writeDataContent`. -/
def writeByteCase (data : Data) (output : List Nat) : Option (Bool × List Nat) :=
  match data with
  | .u8 v => some (true, output ++ [v])
  | _ => none

/-- Case `TYPE_SHORT` of `writeDataContent`. -/
def writeShortCase (data : Data) (output : List Nat) : Option (Bool × List Nat) :=
  match data with
  | .i16 v =>
    let be_data := htons (toUInt16 v)
    some (true, output ++ objectBytes 2 be_data)
  | _ => none

/-- Case `TYPE_INT` of `writeDataContent`. -/
def writeIntCase (data : Data) (output : List Nat) : Option (Bool × List Nat) :=
  match data with
  | .i32 v =>
    let be_data := htonl (toUInt32 v)
    some (true, output ++ objectBytes 4 be_data)
  | _ => none

/-- Case `TYPE_LONG` of `writeDataContent`. -/
def writeLongCase (data : Data) (output : List Nat) : Option (Bool × List Nat) :=
  match data with
  | .i64 v =>
    let be_data := htonll (toUInt64 v)
    some (true, output ++ objectBytes 8 be_data)
  | _ => none

/-- Case `TYPE_FLOAT` of `writeDataContent`. -/
def writeFloatCase (data : Data) (output : List Nat) : Option (Bool × List Nat) :=
  match data with
  | .f32 bits =>
    let be_data := htonl (bits % 4294967296)
    some (true, output ++ objectBytes 4 be_data)
  | _ => none

/-- Case `TYPE_DOUBLE` of `writeDataContent`. -/
def writeDoubleCase (data : Data) (output : List Nat) : Option (Bool × List Nat) :=
  match data with
  | .f64 bits =>
    let be_data := htonll (bits % 18446744073709551616)
    some (true, output ++ objectBytes 8 be_data)
  | _ => none

/-- Case `TYPE_BYTE_ARRAY` of `writeDataContent`. -/
def writeByteArrayCase (data : Data) (dataSize : Int) (output : List Nat) :
    Option (Bool × List Nat) :=
  let balength := htonl (toUInt32 dataSize)
  let output1 := output ++ objectBytes 4 balength
  match data with
  | .bytes buf =>
    match write output1 buf dataSize with
    | none => none
    | some output2 => some (true, output2)
  | _ => none

/-- Case `TYPE_STRING` of `writeDataContent`. -/
def writeStringCase (data : Data) (dataSize : Int) (output : List Nat) :
    Option (Bool × List Nat) :=
  let slength := htons (toUInt16 (toInt16 dataSize))
  let output1 := output ++ objectBytes 2 slength
  match data with
  | .cstr (some str) =>
    match write output1 str dataSize with
    | none => none
    | some output2 => some (true, output2)
  | _ => none

mutual
/-- Function `bool writeTag(NBTtag& tag, std::ostream& output)`. -/
def writeTag : NBTtag → List Nat → Option (Bool × List Nat)
  | .mk TYPE NAME DATA ARRAY_LENGTH, output =>
    let tagType := TYPE
    match strlenInt16 NAME 0 with
    | none => none
    | some nameLength =>
      let be_nameLength := htons (toUInt16 nameLength)
      let output1 := output ++ [tagType]
      let output2 := output1 ++ objectBytes 2 be_nameLength
      match write output2 NAME nameLength with
      | none => none
      | some output3 =>
        match writeDataContent tagType DATA ARRAY_LENGTH output3 with
        | none => none
        | some (r, output4) => some (true && r, output4)
/-- Function `bool writeDataContent(uint8_t tagType, void* data, int32_t dataSize, std::ostream& output)`. -/
def writeDataContent (tagType : Nat) : Data → Int → List Nat → Option (Bool × List Nat)
  | data, dataSize, output =>
    if tagType = TYPE_BYTE then writeByteCase data output
    else if tagType = TYPE_SHORT then writeShortCase data output
    else if tagType = TYPE_INT then writeIntCase data output
    else if tagType = TYPE_LONG then writeLongCase data output
    else if tagType = TYPE_FLOAT then writeFloatCase data output
    else if tagType = TYPE_DOUBLE then writeDoubleCase data output
    else if tagType = TYPE_BYTE_ARRAY then writeByteArrayCase data dataSize output
    else if tagType = TYPE_STRING then writeStringCase data dataSize output
    else if tagType = TYPE_LIST then
      let be_length := htonl (toUInt32 dataSize)
      if dataSize > 0 then
        match data with
        | .tags data_li =>
          match data_li with
          | [] => none
          | first :: _ =>
            let typeByte := first.TYPE
            let output1 := output ++ [typeByte]
            let output2 := output1 ++ objectBytes 4 be_length
            match writeListElements typeByte data_li dataSize.toNat output2 with
            | none => none
            | some output3 => some (true, output3)
        | _ => none
      else some (true, output)
    else if tagType = TYPE_COMPOUND then
      match data with
      | .tags data_cmp_ptr =>
        match writeCompoundElements data_cmp_ptr dataSize.toNat output with
        | none => none
        | some output1 => some (true, output1 ++ [TYPE_END])
      | _ => if dataSize > 0 then none else some (true, output ++ [TYPE_END])
    else some (false, output)
/-- The loop `for (i = 0; i < dataSize; i++) writeDataContent(typeByte, data_li[i].DATA,
data_li[i].ARRAY_LENGTH, output)` of the list case: the array from index `i` on and the
number of iterations left.  The result of each call is dropped. -/
def writeListElements (typeByte : Nat) : List NBTtag → Nat → List Nat → Option (List Nat)
  | _, 0, output => some output
  | [], _ + 1, _ => none
  | .mk _ _ DATA ARRAY_LENGTH :: rest, k + 1, output =>
    match writeDataContent typeByte DATA ARRAY_LENGTH output with
    | none => none
    | some (_, output1) => writeListElements typeByte rest k output1
/-- The loop `for (i = 0; i < dataSize; i++) writeTag(data_cmp_ptr[i], output)` of the
compound case: the array from index `i` on and the number of iterations left.  The
result of each call is dropped. -/
def writeCompoundElements : List NBTtag → Nat → List Nat → Option (List Nat)
  | _, 0, output => some output
  | [], _ + 1, _ => none
  | tag :: rest, k + 1, output =>
    match writeTag tag output with
    | none => none
    | some (_, output1) => writeCompoundElements rest k output1
end

/-! ## Specification vocabulary -/

/-- Big-endian representation of `x` on `n` bytes, most significant byte first. -/
def bigEndian : Nat → Nat → List Nat
  | 0, _ => []
  | n + 1, x => x / 256 ^ n % 256 :: bigEndian n x

/-- Value of an unsigned `w`-bit pattern read as a two's-complement integer. -/
def twosComplement (w : Nat) (x : Nat) : Int :=
  if x < 2 ^ (w - 1) then (x : Int) else (x : Int) - 2 ^ w

/-- A name the encoder can take: text without NUL byte. -/
def IsText (s : List Nat) : Prop := ∀ b ∈ s, b ≠ 0

instance (s : List Nat) : Decidable (IsText s) := by
  unfold IsText; infer_instance

/-- Bytes a tag contributes when it is written to an empty stream. -/
def encoding (tag : NBTtag) : List Nat :=
  match writeTag tag [] with
  | some (_, bytes) => bytes
  | none => []

/-- Bytes the payload of a tag contributes when it is written as contents of kind `k`
to an empty stream. -/
def payloadEncoding (k : Nat) (tag : NBTtag) : List Nat :=
  match writeDataContent k tag.DATA tag.ARRAY_LENGTH [] with
  | some (_, bytes) => bytes
  | none => []

/-- Header of a tag on the wire: kind byte, 2-byte big-endian name length, name bytes. -/
def header (kind : Nat) (name : List Nat) : List Nat :=
  [kind] ++ bigEndian 2 name.length ++ name

/-- Shifts a writer result computed on `output` to the stream `p ++ output`. -/
def shift (p : List Nat) (r : Option (Bool × List Nat)) : Option (Bool × List Nat) :=
  r.map (fun x => (x.1, p ++ x.2))

/-- Name check of a well-formed tree: no NUL byte and at most 32767 bytes. -/
def nameOk (s : List Nat) : Bool :=
  s.all (fun b => b != 0) && decide (s.length ≤ 32767)

/-- Kind of the first element of a tag array (0 for the empty array). -/
def firstKind : List NBTtag → Nat
  | [] => 0
  | first :: _ => first.TYPE

mutual
/-- A named tag of a well-formed tree: its kind is one of Byte .. Compound, its name can
be measured, and its contents are well formed for its kind. -/
def wellFormedTag : NBTtag → Bool
  | .mk ty nm d len => nameOk nm && wellFormedContent ty d len
/-- Contents well formed for kind `k`: `DATA` points at an object of the type of
kind `k`, the stored length is the size of the array behind it, the elements of a List
all have the kind of the first one, and all tags below are well formed. -/
def wellFormedContent (k : Nat) : Data → Int → Bool
  | .u8 _, _ => k == TYPE_BYTE
  | .i16 _, _ => k == TYPE_SHORT
  | .i32 _, _ => k == TYPE_INT
  | .i64 _, _ => k == TYPE_LONG
  | .f32 _, _ => k == TYPE_FLOAT
  | .f64 _, _ => k == TYPE_DOUBLE
  | .bytes buf, len => k == TYPE_BYTE_ARRAY && len == (buf.length : Int)
  | .cstr (some str), len => k == TYPE_STRING && len == (str.length : Int)
  | .cstr none, _ => false
  | .tags arr, len =>
    len == (arr.length : Int)
      && ((k == TYPE_LIST && wellFormedElements (firstKind arr) arr)
          || (k == TYPE_COMPOUND && wellFormedChildren arr))
/-- Elements of a List: every one has kind `k` and contents well formed for `k`. -/
def wellFormedElements (k : Nat) : List NBTtag → Bool
  | [] => true
  | .mk ty _ d len :: rest => ty == k && wellFormedContent k d len && wellFormedElements k rest
/-- Children of a Compound: every one is a well-formed named tag. -/
def wellFormedChildren : List NBTtag → Bool
  | [] => true
  | tag :: rest => wellFormedTag tag && wellFormedChildren rest
end

/-- Chain of Compound tags with empty names nested one inside the other:
`compoundChain d` is the chain of depth `d + 1` (depth 0 has no tag to write). -/
def compoundChain : Nat → NBTtag
  | 0 => makeCompoundTag [] [] 0
  | d + 1 => makeCompoundTag [] [compoundChain d] 1

/-- The same tag with its `NAME` field blanked. -/
def eraseName (tag : NBTtag) : NBTtag :=
  .mk tag.TYPE [] tag.DATA tag.ARRAY_LENGTH

/-! ## The writers on a bounded call stack

`writeTag` and `writeDataContent` call each other once per level of the tree, and neither
call is a tail call.  The definitions below are the same two functions run on a call
stack with room for `frames` more nested calls of the encoder. -/

/-- How a run on a bounded call stack ends: the stack is exhausted by a further call,
the run gives no result (the `none` of the writers above), or the call returns. -/
inductive Outcome (α : Type) where
  | stackExhausted
  | undefined
  | returned (result : α)

/-- A result of the writers above, as the outcome of a call that found room on the stack. -/
def Outcome.ofOption {α : Type} : Option α → Outcome α
  | none => .undefined
  | some result => .returned result

/-- The loop of the list case; `call` is the call `writeDataContent(typeByte, ...)` made
for each element. -/
def listLoopOnStack (call : Data → Int → List Nat → Outcome (Bool × List Nat)) :
    List NBTtag → Nat → List Nat → Outcome (List Nat)
  | _, 0, output => .returned output
  | [], _ + 1, _ => .undefined
  | .mk _ _ DATA ARRAY_LENGTH :: rest, k + 1, output =>
    match call DATA ARRAY_LENGTH output with
    | .stackExhausted => .stackExhausted
    | .undefined => .undefined
    | .returned (_, output1) => listLoopOnStack call rest k output1

/-- The loop of the compound case; `call` is the call `writeTag(...)` made for each
child. -/
def compoundLoopOnStack (call : NBTtag → List Nat → Outcome (Bool × List Nat)) :
    List NBTtag → Nat → List Nat → Outcome (List Nat)
  | _, 0, output => .returned output
  | [], _ + 1, _ => .undefined
  | tag :: rest, k + 1, output =>
    match call tag output with
    | .stackExhausted => .stackExhausted
    | .undefined => .undefined
    | .returned (_, output1) => compoundLoopOnStack call rest k output1

mutual
/-- The function `writeTag` called with room for `frames` nested encoder calls: the call
itself takes one frame and leaves the rest to what it calls. -/
def writeTagOnStack : Nat → NBTtag → List Nat → Outcome (Bool × List Nat)
  | 0, _, _ => .stackExhausted
  | frames + 1, .mk TYPE NAME DATA ARRAY_LENGTH, output =>
    let tagType := TYPE
    match strlenInt16 NAME 0 with
    | none => .undefined
    | some nameLength =>
      let be_nameLength := htons (toUInt16 nameLength)
      let output1 := output ++ [tagType]
      let output2 := output1 ++ objectBytes 2 be_nameLength
      match write output2 NAME nameLength with
      | none => .undefined
      | some output3 =>
        match writeDataContentOnStack frames tagType DATA ARRAY_LENGTH output3 with
        | .stackExhausted => .stackExhausted
        | .undefined => .undefined
        | .returned (r, output4) => .returned (true && r, output4)
/-- The function `writeDataContent` called with room for `frames` nested encoder calls. -/
def writeDataContentOnStack : Nat → Nat → Data → Int → List Nat → Outcome (Bool × List Nat)
  | 0, _, _, _, _ => .stackExhausted
  | frames + 1, tagType, data, dataSize, output =>
    if tagType = TYPE_BYTE then .ofOption (writeByteCase data output)
    else if tagType = TYPE_SHORT then .ofOption (writeShortCase data output)
    else if tagType = TYPE_INT then .ofOption (writeIntCase data output)
    else if tagType = TYPE_LONG then .ofOption (writeLongCase data output)
    else if tagType = TYPE_FLOAT then .ofOption (writeFloatCase data output)
    else if tagType = TYPE_DOUBLE then .ofOption (writeDoubleCase data output)
    else if tagType = TYPE_BYTE_ARRAY then .ofOption (writeByteArrayCase data dataSize output)
    else if tagType = TYPE_STRING then .ofOption (writeStringCase data dataSize output)
    else if tagType = TYPE_LIST then
      let be_length := htonl (toUInt32 dataSize)
      if dataSize > 0 then
        match data with
        | .tags data_li =>
          match data_li with
          | [] => .undefined
          | first :: _ =>
            let typeByte := first.TYPE
            let output1 := output ++ [typeByte]
            let output2 := output1 ++ objectBytes 4 be_length
            match listLoopOnStack (writeDataContentOnStack frames typeByte) data_li
                dataSize.toNat output2 with
            | .stackExhausted => .stackExhausted
            | .undefined => .undefined
            | .returned output3 => .returned (true, output3)
        | _ => .undefined
      else .returned (true, output)
    else if tagType = TYPE_COMPOUND then
      match data with
      | .tags data_cmp_ptr =>
        match compoundLoopOnStack (writeTagOnStack frames) data_cmp_ptr dataSize.toNat
            output with
        | .stackExhausted => .stackExhausted
        | .undefined => .undefined
        | .returned output1 => .returned (true, output1 ++ [TYPE_END])
      | _ => if dataSize > 0 then .undefined else .returned (true, output ++ [TYPE_END])
    else .returned (false, output)
end

/-- Bytes of the chain of `depth` nested empty-named Compounds: `depth` headers
0A 00 00, then `depth` End bytes 00. -/
def chainBytes (depth : Nat) : List Nat :=
  (List.replicate depth [0x0A, 0x00, 0x00]).flatten ++ List.replicate depth 0x00

/-! ## Byte order lemmas -/

theorem objectBytes_length (n x : Nat) : (objectBytes n x).length = n := by
  induction n generalizing x with
  | zero => rfl
  | succ n ih => simp [objectBytes, ih]

theorem fromBigEndian_snoc (bs : List Nat) (b : Nat) :
    fromBigEndian (bs ++ [b]) = fromBigEndian bs * 256 + b := by
  simp [fromBigEndian, List.foldl_append]

theorem objectBytes_fromBigEndian_reverse (bs : List Nat) (h : ∀ b ∈ bs, b < 256) :
    objectBytes bs.length (fromBigEndian bs.reverse) = bs := by
  induction bs with
  | nil => rfl
  | cons b t ih =>
    have hb : b < 256 := h b (by simp)
    have ht : ∀ c ∈ t, c < 256 := fun c hc => h c (by simp [hc])
    rw [List.reverse_cons, fromBigEndian_snoc, List.length_cons, objectBytes]
    have h1 : (fromBigEndian t.reverse * 256 + b) % 256 = b := by omega
    have h2 : (fromBigEndian t.reverse * 256 + b) / 256 = fromBigEndian t.reverse := by omega
    rw [h1, h2, ih ht]

theorem objectBytes_lt (n x : Nat) : ∀ b ∈ objectBytes n x, b < 256 := by
  induction n generalizing x with
  | zero => simp [objectBytes]
  | succ n ih =>
    intro b hb
    simp only [objectBytes, List.mem_cons] at hb
    rcases hb with rfl | hb
    · exact Nat.mod_lt _ (by norm_num)
    · exact ih _ b hb

theorem bigEndian_eq_reverse (n x : Nat) : bigEndian n x = (objectBytes n x).reverse := by
  induction n generalizing x with
  | zero => rfl
  | succ n ih =>
    have key : ∀ m y, (objectBytes (m + 1) y).reverse
        = y / 256 ^ m % 256 :: (objectBytes m y).reverse := by
      intro m
      induction m with
      | zero => intro y; simp [objectBytes]
      | succ m ihm =>
        intro y
        have e1 : objectBytes (m + 1 + 1) y = y % 256 :: objectBytes (m + 1) (y / 256) := rfl
        have e2 : objectBytes (m + 1) y = y % 256 :: objectBytes m (y / 256) := rfl
        rw [e1, List.reverse_cons, ihm (y / 256), e2, List.reverse_cons]
        have e3 : y / 256 / 256 ^ m = y / 256 ^ (m + 1) := by
          rw [Nat.div_div_eq_div_mul, pow_succ, Nat.mul_comm]
        rw [e3]; simp
    rw [bigEndian, key, ih]

/-- Writing the byte-swapped value from memory yields the big-endian bytes. -/
theorem objectBytes_swap (n x : Nat) :
    objectBytes n (fromBigEndian (objectBytes n x)) = bigEndian n x := by
  have h := objectBytes_fromBigEndian_reverse (objectBytes n x).reverse
    (fun b hb => objectBytes_lt n x b (by simpa using hb))
  simpa [objectBytes_length, bigEndian_eq_reverse] using h

theorem bigEndian_length (n x : Nat) : (bigEndian n x).length = n := by
  simp [bigEndian_eq_reverse, objectBytes_length]

theorem fromBigEndian_bigEndian (n x : Nat) : fromBigEndian (bigEndian n x) = x % 256 ^ n := by
  induction n generalizing x with
  | zero => simp [bigEndian, fromBigEndian, Nat.mod_one]
  | succ n ih =>
    have e : bigEndian (n + 1) x = bigEndian n (x / 256) ++ [x % 256] := by
      rw [bigEndian_eq_reverse, bigEndian_eq_reverse, objectBytes, List.reverse_cons]
    rw [e, fromBigEndian_snoc, ih, pow_succ, Nat.mul_comm (256 ^ n) 256, Nat.mod_mul]
    rw [Nat.add_comm, Nat.mul_comm]

/-! ## The length loop -/

theorem toInt16_of_small (x : Int) (h0 : -32768 ≤ x) (h1 : x ≤ 32767) : toInt16 x = x := by
  unfold toInt16; omega

theorem strlenInt16_text (s : List Nat) (n : Nat) (hs : IsText s)
    (h : n + s.length ≤ 32767) : strlenInt16 s n = some ((n + s.length : Nat) : Int) := by
  induction s generalizing n with
  | nil => simp [strlenInt16]
  | cons c rest ih =>
    have hc : c ≠ 0 := hs c (by simp)
    have hr : IsText rest := fun b hb => hs b (by simp [hb])
    simp only [List.length_cons] at h
    have e : toInt16 ((n : Int) + 1) = ((n + 1 : Nat) : Int) := by
      rw [toInt16_of_small] <;> push_cast <;> omega
    have hneg : ¬ (((n + 1 : Nat) : Int) < 0) := by omega
    rw [strlenInt16, if_neg hc]
    simp only [e, if_neg hneg]
    rw [ih (n + 1) hr (by omega), List.length_cons,
      show n + 1 + rest.length = n + (rest.length + 1) by omega]

theorem strlenInt16_overflow (s : List Nat) (n : Nat) (hs : IsText s) (hn : n ≤ 32767)
    (h : 32768 ≤ n + s.length) : strlenInt16 s n = none := by
  induction s generalizing n with
  | nil => simp at h; omega
  | cons c rest ih =>
    have hc : c ≠ 0 := hs c (by simp)
    have hr : IsText rest := fun b hb => hs b (by simp [hb])
    simp only [List.length_cons] at h
    rw [strlenInt16, if_neg hc]
    by_cases hlast : n = 32767
    · subst hlast
      have e : toInt16 (((32767 : Nat) : Int) + 1) = -32768 := by
        unfold toInt16; omega
      simp only [e]
      rfl
    · have e : toInt16 ((n : Int) + 1) = ((n + 1 : Nat) : Int) := by
        rw [toInt16_of_small] <;> push_cast <;> omega
      have hneg : ¬ (((n + 1 : Nat) : Int) < 0) := by omega
      simp only [e, if_neg hneg]
      exact ih (n + 1) hr (by omega) (by omega)

theorem write_all (output s : List Nat) : write output s s.length = some (output ++ s) := by
  simp [write]

theorem write_shift (p output s : List Nat) (n : Int) :
    write (p ++ output) s n = (write output s n).map (fun o => p ++ o) := by
  unfold write
  split <;> simp

/-! ## Unfolding lemmas for the writers -/

theorem writeTag_eq (TYPE : Nat) (NAME : List Nat) (DATA : Data) (ARRAY_LENGTH : Int)
    (output : List Nat) :
    writeTag (.mk TYPE NAME DATA ARRAY_LENGTH) output =
      match strlenInt16 NAME 0 with
      | none => none
      | some nameLength =>
        match write (output ++ [TYPE] ++ objectBytes 2 (htons (toUInt16 nameLength)))
            NAME nameLength with
        | none => none
        | some output3 =>
          match writeDataContent TYPE DATA ARRAY_LENGTH output3 with
          | none => none
          | some (r, output4) => some (true && r, output4) := by
  rfl

theorem writeDataContent_eq (tagType : Nat) (data : Data) (dataSize : Int) (output : List Nat) :
    writeDataContent tagType data dataSize output =
    if tagType = TYPE_BYTE then writeByteCase data output
    else if tagType = TYPE_SHORT then writeShortCase data output
    else if tagType = TYPE_INT then writeIntCase data output
    else if tagType = TYPE_LONG then writeLongCase data output
    else if tagType = TYPE_FLOAT then writeFloatCase data output
    else if tagType = TYPE_DOUBLE then writeDoubleCase data output
    else if tagType = TYPE_BYTE_ARRAY then writeByteArrayCase data dataSize output
    else if tagType = TYPE_STRING then writeStringCase data dataSize output
    else if tagType = TYPE_LIST then
      if dataSize > 0 then
        match data with
        | .tags data_li =>
          match data_li with
          | [] => none
          | first :: _ =>
            match writeListElements first.TYPE data_li dataSize.toNat
                (output ++ [first.TYPE] ++ objectBytes 4 (htonl (toUInt32 dataSize))) with
            | none => none
            | some output3 => some (true, output3)
        | _ => none
      else some (true, output)
    else if tagType = TYPE_COMPOUND then
      match data with
      | .tags data_cmp_ptr =>
        match writeCompoundElements data_cmp_ptr dataSize.toNat output with
        | none => none
        | some output1 => some (true, output1 ++ [TYPE_END])
      | _ => if dataSize > 0 then none else some (true, output ++ [TYPE_END])
    else some (false, output) := by
  cases data <;> rfl

theorem writeListElements_zero (ty : Nat) (arr : List NBTtag) (output : List Nat) :
    writeListElements ty arr 0 output = some output := by
  rcases arr with _ | ⟨⟨_, _, _, _⟩, _⟩ <;> rfl

theorem writeListElements_nil (ty : Nat) (k : Nat) (output : List Nat) :
    writeListElements ty [] (k + 1) output = none := rfl

theorem writeListElements_cons (ty : Nat) (t : NBTtag) (rest : List NBTtag) (k : Nat)
    (output : List Nat) :
    writeListElements ty (t :: rest) (k + 1) output =
      match writeDataContent ty t.DATA t.ARRAY_LENGTH output with
      | none => none
      | some (_, output1) => writeListElements ty rest k output1 := by
  cases t; rfl

theorem writeCompoundElements_zero (arr : List NBTtag) (output : List Nat) :
    writeCompoundElements arr 0 output = some output := by
  cases arr <;> rfl

theorem writeCompoundElements_nil (k : Nat) (output : List Nat) :
    writeCompoundElements [] (k + 1) output = none := rfl

theorem writeCompoundElements_cons (t : NBTtag) (rest : List NBTtag) (k : Nat)
    (output : List Nat) :
    writeCompoundElements (t :: rest) (k + 1) output =
      match writeTag t output with
      | none => none
      | some (_, output1) => writeCompoundElements rest k output1 := rfl

theorem writeDataContent_list (arr : List NBTtag) (dataSize : Int) (output : List Nat) :
    writeDataContent TYPE_LIST (.tags arr) dataSize output =
      if dataSize > 0 then
        match arr with
        | [] => none
        | first :: _ =>
          match writeListElements first.TYPE arr dataSize.toNat
              (output ++ [first.TYPE] ++ objectBytes 4 (htonl (toUInt32 dataSize))) with
          | none => none
          | some output3 => some (true, output3)
      else some (true, output) := rfl

theorem writeDataContent_compound (arr : List NBTtag) (dataSize : Int) (output : List Nat) :
    writeDataContent TYPE_COMPOUND (.tags arr) dataSize output =
      match writeCompoundElements arr dataSize.toNat output with
      | none => none
      | some output1 => some (true, output1 ++ [TYPE_END]) := rfl

/-! ## Writers only append -/

theorem writeLeaf_shift (p output : List Nat) (data : Data) (dataSize : Int) :
    writeByteCase data (p ++ output) = shift p (writeByteCase data output)
    ∧ writeShortCase data (p ++ output) = shift p (writeShortCase data output)
    ∧ writeIntCase data (p ++ output) = shift p (writeIntCase data output)
    ∧ writeLongCase data (p ++ output) = shift p (writeLongCase data output)
    ∧ writeFloatCase data (p ++ output) = shift p (writeFloatCase data output)
    ∧ writeDoubleCase data (p ++ output) = shift p (writeDoubleCase data output)
    ∧ writeByteArrayCase data dataSize (p ++ output)
        = shift p (writeByteArrayCase data dataSize output)
    ∧ writeStringCase data dataSize (p ++ output)
        = shift p (writeStringCase data dataSize output) := by
  refine ⟨?_, ?_, ?_, ?_, ?_, ?_, ?_, ?_⟩
  · cases data <;> simp [writeByteCase, shift]
  · cases data <;> simp [writeShortCase, shift]
  · cases data <;> simp [writeIntCase, shift]
  · cases data <;> simp [writeLongCase, shift]
  · cases data <;> simp [writeFloatCase, shift]
  · cases data <;> simp [writeDoubleCase, shift]
  · cases data <;> simp only [writeByteArrayCase, shift, Option.map_none']
    rename_i buf
    rw [List.append_assoc, write_shift]
    cases write (output ++ objectBytes 4 (htonl (toUInt32 dataSize))) buf dataSize <;> rfl
  · cases data <;> simp only [writeStringCase, shift, Option.map_none']
    rename_i slot
    cases slot with
    | none => rfl
    | some str =>
      simp only []
      rw [List.append_assoc, write_shift]
      cases write (output ++ objectBytes 2 (htons (toUInt16 (toInt16 dataSize)))) str dataSize
        <;> rfl

mutual
theorem writeTag_shift : ∀ (tag : NBTtag) (p output : List Nat),
    writeTag tag (p ++ output) = shift p (writeTag tag output)
  | .mk ty nm d len, p, output => by
    have hd := writeDataContent_shift ty d len p
    rw [writeTag_eq, writeTag_eq]
    cases strlenInt16 nm 0 with
    | none => rfl
    | some nl =>
      simp only []
      rw [List.append_assoc, List.append_assoc, write_shift, ← List.append_assoc]
      cases write (output ++ [ty] ++ objectBytes 2 (htons (toUInt16 nl))) nm nl with
      | none => rfl
      | some o3 =>
        simp only [Option.map_some']
        rw [hd]
        cases writeDataContent ty d len o3 with
        | none => rfl
        | some r => rfl
theorem writeDataContent_shift (ty : Nat) : ∀ (d : Data) (len : Int) (p output : List Nat),
    writeDataContent ty d len (p ++ output) = shift p (writeDataContent ty d len output)
  | .tags arr, len, p, output => by
    have hl := fun k o => writeListElements_shift k arr len.toNat p o
    have hc := writeCompoundElements_shift arr len.toNat p output
    have hleaf := writeLeaf_shift p output (.tags arr) len
    by_cases h9 : ty = TYPE_LIST
    · subst h9
      rw [writeDataContent_list, writeDataContent_list]
      by_cases hpos : len > 0
      · rw [if_pos hpos, if_pos hpos]
        cases arr with
        | nil => rfl
        | cons first rest =>
          simp only []
          rw [List.append_assoc, List.append_assoc, hl, ← List.append_assoc]
          cases writeListElements first.TYPE (first :: rest) len.toNat
            (output ++ [first.TYPE] ++ objectBytes 4 (htonl (toUInt32 len))) <;> rfl
      · rw [if_neg hpos, if_neg hpos]; rfl
    · by_cases h10 : ty = TYPE_COMPOUND
      · subst h10
        rw [writeDataContent_compound, writeDataContent_compound, hc]
        cases writeCompoundElements arr len.toNat output <;> simp [shift]
      · rw [writeDataContent_eq, writeDataContent_eq]
        simp only [if_neg h9, if_neg h10, shift, apply_ite (Option.map _)]
        simp only [shift] at hleaf
        simp only [hleaf]
        simp
  | .u8 v, len, p, output => by
    have hleaf := writeLeaf_shift p output (.u8 v) len
    rw [writeDataContent_eq, writeDataContent_eq]
    simp only [shift, apply_ite (Option.map _)]
    simp only [shift] at hleaf
    simp only [hleaf]
    simp
  | .i16 v, len, p, output => by
    have hleaf := writeLeaf_shift p output (.i16 v) len
    rw [writeDataContent_eq, writeDataContent_eq]
    simp only [shift, apply_ite (Option.map _)]
    simp only [shift] at hleaf
    simp only [hleaf]
    simp
  | .i32 v, len, p, output => by
    have hleaf := writeLeaf_shift p output (.i32 v) len
    rw [writeDataContent_eq, writeDataContent_eq]
    simp only [shift, apply_ite (Option.map _)]
    simp only [shift] at hleaf
    simp only [hleaf]
    simp
  | .i64 v, len, p, output => by
    have hleaf := writeLeaf_shift p output (.i64 v) len
    rw [writeDataContent_eq, writeDataContent_eq]
    simp only [shift, apply_ite (Option.map _)]
    simp only [shift] at hleaf
    simp only [hleaf]
    simp
  | .f32 v, len, p, output => by
    have hleaf := writeLeaf_shift p output (.f32 v) len
    rw [writeDataContent_eq, writeDataContent_eq]
    simp only [shift, apply_ite (Option.map _)]
    simp only [shift] at hleaf
    simp only [hleaf]
    simp
  | .f64 v, len, p, output => by
    have hleaf := writeLeaf_shift p output (.f64 v) len
    rw [writeDataContent_eq, writeDataContent_eq]
    simp only [shift, apply_ite (Option.map _)]
    simp only [shift] at hleaf
    simp only [hleaf]
    simp
  | .bytes v, len, p, output => by
    have hleaf := writeLeaf_shift p output (.bytes v) len
    rw [writeDataContent_eq, writeDataContent_eq]
    simp only [shift, apply_ite (Option.map _)]
    simp only [shift] at hleaf
    simp only [hleaf]
    simp
  | .cstr v, len, p, output => by
    have hleaf := writeLeaf_shift p output (.cstr v) len
    rw [writeDataContent_eq, writeDataContent_eq]
    simp only [shift, apply_ite (Option.map _)]
    simp only [shift] at hleaf
    simp only [hleaf]
    simp
theorem writeListElements_shift (ty : Nat) :
    ∀ (arr : List NBTtag) (k : Nat) (p output : List Nat),
    writeListElements ty arr k (p ++ output)
      = (writeListElements ty arr k output).map (fun o => p ++ o)
  | arr, 0, p, output => by simp [writeListElements_zero]
  | [], _ + 1, p, output => by simp [writeListElements_nil]
  | .mk _ _ d len :: rest, k + 1, p, output => by
    have hd := writeDataContent_shift ty d len p output
    have hr := fun o => writeListElements_shift ty rest k p o
    rw [writeListElements_cons, writeListElements_cons]
    simp only [NBTtag.DATA, NBTtag.ARRAY_LENGTH]
    rw [hd]
    cases writeDataContent ty d len output with
    | none => rfl
    | some r => simp only [shift, Option.map_some', hr]
theorem writeCompoundElements_shift : ∀ (arr : List NBTtag) (k : Nat) (p output : List Nat),
    writeCompoundElements arr k (p ++ output)
      = (writeCompoundElements arr k output).map (fun o => p ++ o)
  | arr, 0, p, output => by simp [writeCompoundElements_zero]
  | [], _ + 1, p, output => by simp [writeCompoundElements_nil]
  | tag :: rest, k + 1, p, output => by
    have ht := writeTag_shift tag p output
    have hr := fun o => writeCompoundElements_shift rest k p o
    rw [writeCompoundElements_cons, writeCompoundElements_cons, ht]
    cases writeTag tag output with
    | none => rfl
    | some r => simp only [shift, Option.map_some', hr]
end

/-! ## The tag header -/

theorem htons_bytes (x : Nat) : objectBytes 2 (htons x) = bigEndian 2 x :=
  objectBytes_swap 2 x

theorem htonl_bytes (x : Nat) : objectBytes 4 (htonl x) = bigEndian 4 x :=
  objectBytes_swap 4 x

theorem htonll_bytes (x : Nat) : objectBytes 8 (htonll x) = bigEndian 8 x :=
  objectBytes_swap 8 x

theorem toUInt16_natCast (n : Nat) (h : n < 65536) : toUInt16 (n : Int) = n := by
  unfold toUInt16; omega

theorem toUInt32_natCast (n : Nat) (h : n < 4294967296) : toUInt32 (n : Int) = n := by
  unfold toUInt32; omega

/-- With a name the length counter can measure, `writeTag` writes the header and then
the contents. -/
theorem writeTag_of_text (ty : Nat) (nm : List Nat) (d : Data) (len : Int) (output : List Nat)
    (hs : IsText nm) (hl : nm.length ≤ 32767) :
    writeTag (.mk ty nm d len) output
      = writeDataContent ty d len (output ++ header ty nm) := by
  have h1 := strlenInt16_text nm 0 hs (by omega)
  simp only [Nat.zero_add, Nat.cast_zero] at h1
  rw [writeTag_eq, h1]
  simp only []
  rw [write_all, toUInt16_natCast _ (by omega), htons_bytes]
  simp only [header, List.append_assoc]
  cases writeDataContent ty d len (output ++ ([ty] ++ (bigEndian 2 nm.length ++ nm))) with
  | none => rfl
  | some r => simp

theorem writeTag_of_text_nil (ty : Nat) (nm : List Nat) (d : Data) (len : Int)
    (hs : IsText nm) (hl : nm.length ≤ 32767) :
    writeTag (.mk ty nm d len) []
      = shift (header ty nm) (writeDataContent ty d len []) := by
  rw [writeTag_of_text ty nm d len [] hs hl, ← writeDataContent_shift]
  simp

/-! ## The two container loops over a whole array -/

theorem writeCompoundElements_all (cs : List NBTtag) (output : List Nat)
    (hcs : ∀ c ∈ cs, (writeTag c []).isSome) :
    writeCompoundElements cs cs.length output
      = some (output ++ (cs.map encoding).flatten) := by
  induction cs generalizing output with
  | nil => simp [writeCompoundElements_zero]
  | cons c rest ih =>
    have hc := hcs c (by simp)
    have hrest : ∀ x ∈ rest, (writeTag x []).isSome := fun x hx => hcs x (by simp [hx])
    have hp := writeTag_shift c output []
    rw [List.append_nil] at hp
    rw [List.length_cons, writeCompoundElements_cons, hp]
    cases hw : writeTag c [] with
    | none => rw [hw] at hc; simp at hc
    | some r =>
      simp only [shift, Option.map_some']
      rw [ih _ hrest]
      simp [encoding, hw]

theorem writeListElements_all (k : Nat) (cs : List NBTtag) (output : List Nat)
    (hcs : ∀ c ∈ cs, (writeDataContent k c.DATA c.ARRAY_LENGTH []).isSome) :
    writeListElements k cs cs.length output
      = some (output ++ (cs.map (payloadEncoding k)).flatten) := by
  induction cs generalizing output with
  | nil => simp [writeListElements_zero]
  | cons c rest ih =>
    have hc := hcs c (by simp)
    have hrest : ∀ x ∈ rest, (writeDataContent k x.DATA x.ARRAY_LENGTH []).isSome :=
      fun x hx => hcs x (by simp [hx])
    have hp := writeDataContent_shift k c.DATA c.ARRAY_LENGTH output []
    rw [List.append_nil] at hp
    rw [List.length_cons, writeListElements_cons, hp]
    cases hw : writeDataContent k c.DATA c.ARRAY_LENGTH [] with
    | none => rw [hw] at hc; simp at hc
    | some r =>
      simp only [shift, Option.map_some']
      rw [ih _ hrest]
      simp [payloadEncoding, hw]

/-- A name of 32768 bytes or more makes the `int16_t` counter of `writeTag` wrap. -/
theorem writeTag_long_name (ty : Nat) (nm : List Nat) (d : Data) (len : Int)
    (output : List Nat) (hs : IsText nm) (h : 32768 ≤ nm.length) :
    writeTag (.mk ty nm d len) output = none := by
  have h1 := strlenInt16_overflow nm 0 hs (by omega) (by omega)
  simp only [Nat.cast_zero] at h1
  rw [writeTag_eq, h1]

theorem isText_replicate (k b : Nat) (hb : b ≠ 0) : IsText (List.replicate k b) := by
  intro c hc
  rw [List.eq_of_mem_replicate hc]
  exact hb

/-- Up to 32767 name bytes the header is complete: what `writeTag` writes is the kind
byte, the name length as a 16-bit big-endian integer, the name bytes verbatim, and
directly after them the bytes of the contents. -/
theorem header_encoding (ty : Nat) (nm : List Nat) (d : Data) (len : Int)
    (hs : IsText nm) (hl : nm.length ≤ 32767) :
    writeTag (.mk ty nm d len) []
      = (writeDataContent ty d len []).map
          (fun r => (r.1, [ty] ++ bigEndian 2 nm.length ++ nm ++ r.2)) := by
  rw [writeTag_of_text_nil ty nm d len hs hl]
  rfl

/-- The Short tag "hp" = 100: header 02 00 02 'h' 'p', then the contents 00 64. -/
theorem header_encoding_example :
    writeTag (.mk 2 [104, 112] (.i16 100) 2) []
      = some (true, [2, 0, 2, 104, 112, 0, 100]) :=
  (header_encoding 2 [104, 112] (.i16 100) 2 (by decide) (by decide)).trans (by decide)

/-- Every tag `makeStringTag` returns makes `writeTag` read through the expired
parameter slot, whatever the text and the stream. -/
theorem writeTag_makeStringTag (name text : List Nat) (tag : NBTtag) (output : List Nat)
    (h : makeStringTag name text = some tag) : writeTag tag output = none := by
  unfold makeStringTag at h
  cases hl : strlenInt16 text 0 with
  | none => rw [hl] at h; cases h
  | some length =>
    rw [hl] at h
    simp only [Option.some.injEq] at h
    subst h
    rw [writeTag_eq]
    cases strlenInt16 name 0 with
    | none => rfl
    | some nl =>
      simp only []
      cases write (output ++ [TYPE_STRING] ++ objectBytes 2 (htons (toUInt16 nl))) name nl with
      | none => rfl
      | some o3 => rfl

/-! ## Well-formed trees are written -/

theorem nameOk_iff (s : List Nat) : nameOk s = true ↔ IsText s ∧ s.length ≤ 32767 := by
  simp [nameOk, IsText]

theorem writeDataContent_false (ty : Nat) (d : Data) (len : Int) (output bytes : List Nat)
    (h : writeDataContent ty d len output = some (false, bytes)) :
    ¬ (1 ≤ ty ∧ ty ≤ 10) := by
  rintro ⟨h1, h10⟩
  rw [writeDataContent_eq] at h
  interval_cases ty
  · cases d <;> simp [writeByteCase] at h
  · cases d <;> simp [writeShortCase] at h
  · cases d <;> simp [writeIntCase] at h
  · cases d <;> simp [writeLongCase] at h
  · cases d <;> simp [writeFloatCase] at h
  · cases d <;> simp [writeDoubleCase] at h
  · cases d <;> simp [writeByteArrayCase] at h
    split at h <;> simp at h
  · cases d <;> simp [writeStringCase] at h
    repeat (any_goals split at h)
    all_goals simp at h
  · cases d <;> simp at h
    repeat (any_goals split at h)
    all_goals first | contradiction | simp at h
  · cases d <;> simp at h
    repeat (any_goals split at h)
    all_goals first | contradiction | simp at h

mutual
theorem wellFormedTag_writes : ∀ (tag : NBTtag) (output : List Nat),
    wellFormedTag tag = true → ∃ bytes, writeTag tag output = some (true, bytes)
  | .mk ty nm d len, output, h => by
    have hd := wellFormedContent_writes ty d len (output ++ header ty nm)
    have e : wellFormedTag (.mk ty nm d len) = (nameOk nm && wellFormedContent ty d len) := rfl
    rw [e, Bool.and_eq_true, nameOk_iff] at h
    rw [writeTag_of_text _ _ _ _ _ h.1.1 h.1.2]
    exact hd h.2
theorem wellFormedContent_writes (k : Nat) : ∀ (d : Data) (len : Int) (output : List Nat),
    wellFormedContent k d len = true → ∃ bytes, writeDataContent k d len output = some (true, bytes)
  | .u8 v, len, output, h => by
    have e : wellFormedContent k (.u8 v) len = (k == TYPE_BYTE) := rfl
    rw [e, beq_iff_eq] at h; subst h
    exact ⟨_, rfl⟩
  | .i16 v, len, output, h => by
    have e : wellFormedContent k (.i16 v) len = (k == TYPE_SHORT) := rfl
    rw [e, beq_iff_eq] at h; subst h
    exact ⟨_, rfl⟩
  | .i32 v, len, output, h => by
    have e : wellFormedContent k (.i32 v) len = (k == TYPE_INT) := rfl
    rw [e, beq_iff_eq] at h; subst h
    exact ⟨_, rfl⟩
  | .i64 v, len, output, h => by
    have e : wellFormedContent k (.i64 v) len = (k == TYPE_LONG) := rfl
    rw [e, beq_iff_eq] at h; subst h
    exact ⟨_, rfl⟩
  | .f32 v, len, output, h => by
    have e : wellFormedContent k (.f32 v) len = (k == TYPE_FLOAT) := rfl
    rw [e, beq_iff_eq] at h; subst h
    exact ⟨_, rfl⟩
  | .f64 v, len, output, h => by
    have e : wellFormedContent k (.f64 v) len = (k == TYPE_DOUBLE) := rfl
    rw [e, beq_iff_eq] at h; subst h
    exact ⟨_, rfl⟩
  | .bytes buf, len, output, h => by
    have e : wellFormedContent k (.bytes buf) len
        = (k == TYPE_BYTE_ARRAY && len == (buf.length : Int)) := rfl
    rw [e, Bool.and_eq_true, beq_iff_eq, beq_iff_eq] at h
    obtain ⟨hk, hl⟩ := h
    subst hk; subst hl
    rw [writeDataContent_eq]
    simp only [TYPE_BYTE_ARRAY, writeByteArrayCase]
    rw [write_all]
    exact ⟨_, rfl⟩
  | .cstr none, len, output, h => by
    have e : wellFormedContent k (.cstr none) len = false := rfl
    rw [e] at h; cases h
  | .cstr (some str), len, output, h => by
    have e : wellFormedContent k (.cstr (some str)) len
        = (k == TYPE_STRING && len == (str.length : Int)) := rfl
    rw [e, Bool.and_eq_true, beq_iff_eq, beq_iff_eq] at h
    obtain ⟨hk, hl⟩ := h
    subst hk; subst hl
    rw [writeDataContent_eq]
    simp only [TYPE_STRING, writeStringCase]
    rw [write_all]
    exact ⟨_, rfl⟩
  | .tags arr, len, output, h => by
    have hl := fun o => wellFormedElements_writes (firstKind arr) arr o
    have hc := wellFormedChildren_writes arr output
    have e : wellFormedContent k (.tags arr) len
        = (len == (arr.length : Int)
            && ((k == TYPE_LIST && wellFormedElements (firstKind arr) arr)
                || (k == TYPE_COMPOUND && wellFormedChildren arr))) := rfl
    rw [e, Bool.and_eq_true, Bool.or_eq_true, Bool.and_eq_true, Bool.and_eq_true,
      beq_iff_eq, beq_iff_eq, beq_iff_eq] at h
    obtain ⟨hlen, ⟨hk, hwf⟩ | ⟨hk, hwf⟩⟩ := h
    · subst hk; subst hlen
      rw [writeDataContent_list]
      cases arr with
      | nil => exact ⟨_, rfl⟩
      | cons first rest =>
        have hpos : (((first :: rest).length : Nat) : Int) > 0 := by simp
        rw [if_pos hpos]
        simp only [Int.toNat_ofNat]
        obtain ⟨bytes, hb⟩ := hl _ hwf
        simp only [firstKind] at hb
        rw [hb]
        exact ⟨_, rfl⟩
    · subst hk; subst hlen
      rw [writeDataContent_compound, Int.toNat_ofNat]
      obtain ⟨bytes, hb⟩ := hc hwf
      rw [hb]
      exact ⟨_, rfl⟩
theorem wellFormedElements_writes (k : Nat) : ∀ (arr : List NBTtag) (output : List Nat),
    wellFormedElements k arr = true → ∃ bytes, writeListElements k arr arr.length output = some bytes
  | [], output, _ => ⟨output, rfl⟩
  | .mk ty nm d len :: rest, output, h => by
    have hd := wellFormedContent_writes k d len output
    have hr := fun o => wellFormedElements_writes k rest o
    have e : wellFormedElements k (.mk ty nm d len :: rest)
        = (ty == k && wellFormedContent k d len && wellFormedElements k rest) := rfl
    rw [e, Bool.and_eq_true, Bool.and_eq_true] at h
    obtain ⟨bytes, hb⟩ := hd h.1.2
    rw [List.length_cons, writeListElements_cons]
    simp only [NBTtag.DATA, NBTtag.ARRAY_LENGTH]
    rw [hb]
    exact hr _ h.2
theorem wellFormedChildren_writes : ∀ (arr : List NBTtag) (output : List Nat),
    wellFormedChildren arr = true → ∃ bytes, writeCompoundElements arr arr.length output = some bytes
  | [], output, _ => ⟨output, rfl⟩
  | tag :: rest, output, h => by
    have ht := wellFormedTag_writes tag output
    have hr := fun o => wellFormedChildren_writes rest o
    have e : wellFormedChildren (tag :: rest)
        = (wellFormedTag tag && wellFormedChildren rest) := rfl
    rw [e, Bool.and_eq_true] at h
    obtain ⟨bytes, hb⟩ := ht h.1
    rw [List.length_cons, writeCompoundElements_cons, hb]
    exact hr _ h.2
end

/-! ## Claims -/

/-- C1. A Compound tag named `n` with children `cs` is written as the byte 0x0A, the
2-byte big-endian length of `n`, the bytes of `n`, the complete encodings of the
children in order, and one End byte 0x00; the children may be of any kind and nest
to any depth. -/
theorem compound_encoding (n : List Nat) (cs : List NBTtag)
    (hn : IsText n) (hlen : n.length ≤ 32767)
    (hcs : ∀ c ∈ cs, (writeTag c []).isSome) :
    writeTag (makeCompoundTag n cs cs.length) []
      = some (true, [0x0A] ++ bigEndian 2 n.length ++ n ++ (cs.map encoding).flatten ++ [0x00]) := by
  unfold makeCompoundTag
  rw [writeTag_of_text _ _ _ _ _ hn hlen, writeDataContent_compound, Int.toNat_ofNat,
    writeCompoundElements_all cs _ hcs]
  simp [header]

/-- Scenario A: Compound "root" holding Short "hp" = 100. -/
theorem compound_encoding_witness :
    writeTag (makeCompoundTag [114, 111, 111, 116] [makeShortTag [104, 112] 100] 1) []
      = some (true, [0x0A, 0x00, 0x04, 114, 111, 111, 116,
                     0x02, 0x00, 0x02, 104, 112, 0x00, 0x64, 0x00]) :=
  (compound_encoding [114, 111, 111, 116] [makeShortTag [104, 112] 100]
    (by decide) (by decide) (by decide)).trans (by decide)

/-- C2. A List tag with `N ≥ 1` children that all have kind `k` is written as its header
followed by the byte `k`, the 4-byte big-endian value `N`, and the payload-only
encodings of the children in order. -/
theorem list_encoding (n : List Nat) (k : Nat) (cs : List NBTtag)
    (hn : IsText n) (hlen : n.length ≤ 32767)
    (hne : 1 ≤ cs.length) (hN : cs.length < 2 ^ 31)
    (hk : ∀ c ∈ cs, c.TYPE = k)
    (hcs : ∀ c ∈ cs, (writeDataContent k c.DATA c.ARRAY_LENGTH []).isSome) :
    writeTag (makeListTag n cs cs.length) []
      = some (true, header 0x09 n ++ [k] ++ bigEndian 4 cs.length
                ++ (cs.map (payloadEncoding k)).flatten) := by
  unfold makeListTag
  rw [writeTag_of_text _ _ _ _ _ hn hlen, writeDataContent_list]
  cases cs with
  | nil => simp at hne
  | cons first rest =>
    have hfirst : first.TYPE = k := hk first (by simp)
    have hpos : ((first :: rest).length : Int) > 0 := by simp
    rw [if_pos hpos]
    simp only []
    rw [hfirst, Int.toNat_ofNat, writeListElements_all k _ _ hcs,
      toUInt32_natCast _ (by omega), htonl_bytes]
    simp

/-- Scenario C: List "nums" of Int 1 and Int 2. -/
theorem list_encoding_witness :
    writeTag (makeListTag [110, 117, 109, 115] [makeIntTag [] 1, makeIntTag [] 2] 2) []
      = some (true, [0x09, 0x00, 0x04, 110, 117, 109, 115, 0x03, 0x00, 0x00, 0x00, 0x02,
                     0x00, 0x00, 0x00, 0x01, 0x00, 0x00, 0x00, 0x02]) :=
  (list_encoding [110, 117, 109, 115] 3 [makeIntTag [] 1, makeIntTag [] 2]
    (by decide) (by decide) (by decide) (by decide) (by decide) (by decide)).trans (by decide)

/-- C3. A ByteArray tag named `n` over the bytes `b` is written as 0x07, the 2-byte
big-endian length of `n`, the bytes of `n`, the 4-byte big-endian length of `b`, and
the bytes of `b` unchanged and in order. -/
theorem byteArray_encoding (n b : List Nat)
    (hn : IsText n) (hlen : n.length ≤ 32767) (hL : b.length < 2 ^ 31) :
    writeTag (makeByteArrayTag n b b.length) []
      = some (true, [0x07] ++ bigEndian 2 n.length ++ n ++ bigEndian 4 b.length ++ b) := by
  unfold makeByteArrayTag
  rw [writeTag_of_text _ _ _ _ _ hn hlen, writeDataContent_eq]
  simp only [TYPE_BYTE_ARRAY, writeByteArrayCase]
  rw [write_all, toUInt32_natCast _ (by omega), htonl_bytes]
  simp [header]

/-- Scenario B: ByteArray "data" with bytes 1, 2, 3. -/
theorem byteArray_encoding_witness :
    writeTag (makeByteArrayTag [100, 97, 116, 97] [1, 2, 3] 3) []
      = some (true, [0x07, 0x00, 0x04, 100, 97, 116, 97, 0x00, 0x00, 0x00, 0x03,
                     0x01, 0x02, 0x03]) :=
  (byteArray_encoding [100, 97, 116, 97] [1, 2, 3] (by decide) (by decide) (by decide)).trans
    (by decide)

/-- C4 (failing input). For a tag whose name has 32768 bytes, a length within
0 .. 65535, `writeTag` does not produce an output that starts with the kind byte, the
length 32768 and the 32768 name bytes: the `int16_t` length counter wraps to -32768
after index 32767 and the next read is before the start of the name. -/
theorem header_fails_at_32768 :
    ¬ ∃ r, writeTag (makeByteTag (List.replicate 32768 97) 0) [] = some r
        ∧ r.2.take (3 + 32768) = header 1 (List.replicate 32768 97) := by
  rintro ⟨r, h, _⟩
  have e : writeTag (makeByteTag (List.replicate 32768 97) 0) [] = none :=
    writeTag_long_name 1 (List.replicate 32768 97) (.u8 0) 1 []
      (isText_replicate _ _ (by decide)) (le_of_eq (List.length_replicate 32768 97).symm)
  rw [e] at h
  cases h

/-- C5. Each scalar tag is written as its header followed by the big-endian bytes of
the stored value at the fixed width of its kind, and reading these bytes back most
significant byte first (as a two's-complement integer for Short, Int and Long)
gives the stored value again. -/
theorem scalar_payload_roundtrip (n : List Nat) (hn : IsText n) (hlen : n.length ≤ 32767) :
    (∀ v : Nat, v < 2 ^ 8 →
      writeTag (makeByteTag n v) [] = some (true, header 1 n ++ bigEndian 1 v)
      ∧ fromBigEndian (bigEndian 1 v) = v)
    ∧ (∀ v : Int, -2 ^ 15 ≤ v → v < 2 ^ 15 →
      writeTag (makeShortTag n v) [] = some (true, header 2 n ++ bigEndian 2 (toUInt16 v))
      ∧ twosComplement 16 (fromBigEndian (bigEndian 2 (toUInt16 v))) = v)
    ∧ (∀ v : Int, -2 ^ 31 ≤ v → v < 2 ^ 31 →
      writeTag (makeIntTag n v) [] = some (true, header 3 n ++ bigEndian 4 (toUInt32 v))
      ∧ twosComplement 32 (fromBigEndian (bigEndian 4 (toUInt32 v))) = v)
    ∧ (∀ v : Int, -2 ^ 63 ≤ v → v < 2 ^ 63 →
      writeTag (makeLongTag n v) [] = some (true, header 4 n ++ bigEndian 8 (toUInt64 v))
      ∧ twosComplement 64 (fromBigEndian (bigEndian 8 (toUInt64 v))) = v)
    ∧ (∀ bits : Nat, bits < 2 ^ 32 →
      writeTag (makeFloatTag n bits) [] = some (true, header 5 n ++ bigEndian 4 bits)
      ∧ fromBigEndian (bigEndian 4 bits) = bits)
    ∧ (∀ bits : Nat, bits < 2 ^ 64 →
      writeTag (makeDoubleTag n bits) [] = some (true, header 6 n ++ bigEndian 8 bits)
      ∧ fromBigEndian (bigEndian 8 bits) = bits) := by
  refine ⟨?_, ?_, ?_, ?_, ?_, ?_⟩
  · intro v hv
    refine ⟨?_, ?_⟩
    · rw [makeByteTag, writeTag_of_text _ _ _ _ _ hn hlen, writeDataContent_eq]
      simp [writeByteCase, bigEndian]
      omega
    · rw [fromBigEndian_bigEndian]; exact Nat.mod_eq_of_lt (by omega)
  · intro v h0 h1
    refine ⟨?_, ?_⟩
    · rw [makeShortTag, writeTag_of_text _ _ _ _ _ hn hlen, writeDataContent_eq]
      simp [writeShortCase, htons_bytes]
    · rw [fromBigEndian_bigEndian]
      unfold twosComplement toUInt16
      split_ifs <;> omega
  · intro v h0 h1
    refine ⟨?_, ?_⟩
    · rw [makeIntTag, writeTag_of_text _ _ _ _ _ hn hlen, writeDataContent_eq]
      simp [writeIntCase, htonl_bytes]
    · rw [fromBigEndian_bigEndian]
      unfold twosComplement toUInt32
      split_ifs <;> omega
  · intro v h0 h1
    refine ⟨?_, ?_⟩
    · rw [makeLongTag, writeTag_of_text _ _ _ _ _ hn hlen, writeDataContent_eq]
      simp [writeLongCase, htonll_bytes]
    · rw [fromBigEndian_bigEndian]
      unfold twosComplement toUInt64
      split_ifs <;> omega
  · intro v hv
    refine ⟨?_, ?_⟩
    · rw [makeFloatTag, writeTag_of_text _ _ _ _ _ hn hlen, writeDataContent_eq]
      have e : v % 4294967296 = v := Nat.mod_eq_of_lt (by omega)
      simp [writeFloatCase, htonl_bytes, e]
    · rw [fromBigEndian_bigEndian]; exact Nat.mod_eq_of_lt (by omega)
  · intro v hv
    refine ⟨?_, ?_⟩
    · rw [makeDoubleTag, writeTag_of_text _ _ _ _ _ hn hlen, writeDataContent_eq]
      have e : v % 18446744073709551616 = v := Nat.mod_eq_of_lt (by omega)
      simp [writeDoubleCase, htonll_bytes, e]
    · rw [fromBigEndian_bigEndian]; exact Nat.mod_eq_of_lt (by omega)

/-- The Short tag "hp" holding -2 is written with payload FF FE, which reads back as -2. -/
theorem scalar_payload_roundtrip_witness :
    writeTag (makeShortTag [104, 112] (-2)) []
        = some (true, header 2 [104, 112] ++ bigEndian 2 (toUInt16 (-2)))
      ∧ twosComplement 16 (fromBigEndian (bigEndian 2 (toUInt16 (-2)))) = -2
      ∧ header 2 [104, 112] ++ bigEndian 2 (toUInt16 (-2)) = [2, 0, 2, 104, 112, 0xFF, 0xFE] :=
  ⟨((scalar_payload_roundtrip [104, 112] (by decide) (by decide)).2.1 (-2)
      (by decide) (by decide)).1,
   ((scalar_payload_roundtrip [104, 112] (by decide) (by decide)).2.1 (-2)
      (by decide) (by decide)).2,
   by decide⟩

/-- C6 (failing input). The tag `makeStringTag` builds for the text "hi" holds the address
of the parameter of the maker, a variable that no longer exists; `writeTag` reads the
text through it, so the bytes of "hi" are not what the run is bound to write. -/
theorem writeTag_makeStringTag_hi :
    makeStringTag [115] [104, 105] = some (.mk TYPE_STRING [115] (.cstr none) 2)
      ∧ writeTag (.mk TYPE_STRING [115] (.cstr none) 2) [] = none :=
  ⟨rfl, by decide⟩

/-- C7. `writeTag` returns `true` for every well-formed tag tree (all kinds among
Byte .. Compound, every List with elements of one kind), and it returns `false` only
for a tag whose kind is outside the enumeration. -/
theorem writeTag_success (tag : NBTtag) :
    (wellFormedTag tag = true → ∃ bytes, writeTag tag [] = some (true, bytes))
    ∧ (∀ output bytes, writeTag tag output = some (false, bytes) →
        ¬ (1 ≤ tag.TYPE ∧ tag.TYPE ≤ 10)) := by
  refine ⟨wellFormedTag_writes tag [], ?_⟩
  intro output bytes h
  obtain ⟨ty, nm, d, len⟩ := tag
  rw [writeTag_eq] at h
  cases h1 : strlenInt16 nm 0 with
  | none => rw [h1] at h; cases h
  | some nl =>
    rw [h1] at h
    simp only [] at h
    cases h2 : write (output ++ [ty] ++ objectBytes 2 (htons (toUInt16 nl))) nm nl with
    | none => rw [h2] at h; cases h
    | some o3 =>
      rw [h2] at h
      simp only [] at h
      cases h3 : writeDataContent ty d len o3 with
      | none => rw [h3] at h; cases h
      | some r =>
        obtain ⟨b, o4⟩ := r
        rw [h3] at h
        simp only [Bool.true_and, Option.some.injEq, Prod.mk.injEq] at h
        obtain ⟨hb, _⟩ := h
        subst hb
        exact writeDataContent_false ty d len o3 o4 h3

/-- A Compound holding a Byte, a String read through a live pointer, and a List of two
Shorts is well formed and `writeTag` returns `true` for it; a tag of kind 11 makes
`writeTag` return `false`, and 11 is outside the enumeration. -/
theorem writeTag_success_witness :
    (wellFormedTag (makeCompoundTag [114]
        [makeByteTag [98] 7, .mk TYPE_STRING [115] (.cstr (some [104, 105])) 2,
         makeListTag [108] [makeShortTag [] 1, makeShortTag [] (-1)] 2] 3) = true
      ∧ ∃ bytes, writeTag (makeCompoundTag [114]
        [makeByteTag [98] 7, .mk TYPE_STRING [115] (.cstr (some [104, 105])) 2,
         makeListTag [108] [makeShortTag [] 1, makeShortTag [] (-1)] 2] 3) []
          = some (true, bytes))
    ∧ (writeTag (.mk 11 [120] (.u8 0) 1) [] = some (false, [11, 0, 1, 120])
      ∧ ¬ (1 ≤ (NBTtag.mk 11 [120] (.u8 0) 1).TYPE ∧ (NBTtag.mk 11 [120] (.u8 0) 1).TYPE ≤ 10)) :=
  ⟨⟨by decide, (writeTag_success _).1 (by decide)⟩,
   ⟨by decide, (writeTag_success (.mk 11 [120] (.u8 0) 1)).2 [] [11, 0, 1, 120] (by decide)⟩⟩

/-- C8 (failing input). A tag of kind 11 alone is reported (`false`), but as the only
child of a Compound, or as the only element of a List, it is not: the top-level
call returns `true`. -/
theorem unknown_kind_inside_not_reported :
    writeTag (.mk 11 [120] (.u8 0) 1) [] = some (false, [11, 0, 1, 120])
      ∧ writeTag (makeCompoundTag [99] [.mk 11 [120] (.u8 0) 1] 1) []
          = some (true, [10, 0, 1, 99, 11, 0, 1, 120, 0])
      ∧ writeTag (makeListTag [108] [.mk 11 [120] (.u8 0) 1] 1) []
          = some (true, [9, 0, 1, 108, 11, 0, 0, 0, 1]) := by
  decide

/-- C9 (failing input). The List of Lists holding an empty List and then the List of
Int 1, and the one holding them in the other order, are two well-formed trees that
differ (all element names are empty) and are written as the same bytes. -/
theorem empty_list_position_lost :
    makeListTag [108] [makeListTag [] [] 0, makeListTag [] [makeIntTag [] 1] 1] 2
        ≠ makeListTag [108] [makeListTag [] [makeIntTag [] 1] 1, makeListTag [] [] 0] 2
      ∧ wellFormedTag
          (makeListTag [108] [makeListTag [] [] 0, makeListTag [] [makeIntTag [] 1] 1] 2) = true
      ∧ wellFormedTag
          (makeListTag [108] [makeListTag [] [makeIntTag [] 1] 1, makeListTag [] [] 0] 2) = true
      ∧ writeTag
          (makeListTag [108] [makeListTag [] [] 0, makeListTag [] [makeIntTag [] 1] 1] 2) []
        = some (true, [9, 0, 1, 108, 9, 0, 0, 0, 2, 3, 0, 0, 0, 1, 0, 0, 0, 1])
      ∧ writeTag
          (makeListTag [108] [makeListTag [] [makeIntTag [] 1] 1, makeListTag [] [] 0] 2) []
        = some (true, [9, 0, 1, 108, 9, 0, 0, 0, 2, 3, 0, 0, 0, 1, 0, 0, 0, 1]) := by
  refine ⟨?_, by decide, by decide, by decide, by decide⟩
  simp [makeListTag]

/-- C10. Every maker other than `makeStringTag` returns a tag with the given name, the
given data, the kind of the maker, and the stored length 1/2/4/8/4/8 (scalars) or the
given size (ByteArray, List, Compound); no maker returns a tag of kind End. -/
theorem makers_fields (name : List Nat) (b : Nat) (i : Int) (bits : Nat) (buf : List Nat)
    (arr : List NBTtag) (size : Int) (text : List Nat) :
    makeByteTag name b = .mk 1 name (.u8 b) 1
      ∧ makeShortTag name i = .mk 2 name (.i16 i) 2
      ∧ makeIntTag name i = .mk 3 name (.i32 i) 4
      ∧ makeLongTag name i = .mk 4 name (.i64 i) 8
      ∧ makeFloatTag name bits = .mk 5 name (.f32 bits) 4
      ∧ makeDoubleTag name bits = .mk 6 name (.f64 bits) 8
      ∧ makeByteArrayTag name buf size = .mk 7 name (.bytes buf) size
      ∧ makeListTag name arr size = .mk 9 name (.tags arr) size
      ∧ makeCompoundTag name arr size = .mk 10 name (.tags arr) size
      ∧ (makeStringTag name text).map NBTtag.TYPE ≠ some TYPE_END := by
  refine ⟨rfl, rfl, rfl, rfl, rfl, rfl, rfl, rfl, rfl, ?_⟩
  unfold makeStringTag
  cases strlenInt16 text 0 <;> simp [NBTtag.TYPE]

/-! ## Further lemmas on the makers and on unknown kinds -/

theorem makeStringTag_of_text (name text : List Nat) (hs : IsText text)
    (hl : text.length ≤ 32767) :
    makeStringTag name text = some (.mk TYPE_STRING name (.cstr none) text.length) := by
  have h := strlenInt16_text text 0 hs (by omega)
  simp only [Nat.zero_add, Nat.cast_zero] at h
  rw [makeStringTag, h]

theorem makeStringTag_long (name text : List Nat) (hs : IsText text)
    (hl : 32768 ≤ text.length) : makeStringTag name text = none := by
  have h := strlenInt16_overflow text 0 hs (by omega) (by omega)
  simp only [Nat.cast_zero] at h
  rw [makeStringTag, h]

theorem writeDataContent_unknown (ty : Nat) (d : Data) (len : Int) (output : List Nat)
    (h : ty = 0 ∨ 11 ≤ ty) : writeDataContent ty d len output = some (false, output) := by
  rw [writeDataContent_eq]
  have h1 : ¬ ty = TYPE_BYTE := by simp only [TYPE_BYTE]; omega
  have h2 : ¬ ty = TYPE_SHORT := by simp only [TYPE_SHORT]; omega
  have h3 : ¬ ty = TYPE_INT := by simp only [TYPE_INT]; omega
  have h4 : ¬ ty = TYPE_LONG := by simp only [TYPE_LONG]; omega
  have h5 : ¬ ty = TYPE_FLOAT := by simp only [TYPE_FLOAT]; omega
  have h6 : ¬ ty = TYPE_DOUBLE := by simp only [TYPE_DOUBLE]; omega
  have h7 : ¬ ty = TYPE_BYTE_ARRAY := by simp only [TYPE_BYTE_ARRAY]; omega
  have h8 : ¬ ty = TYPE_STRING := by simp only [TYPE_STRING]; omega
  have h9 : ¬ ty = TYPE_LIST := by simp only [TYPE_LIST]; omega
  have h10 : ¬ ty = TYPE_COMPOUND := by simp only [TYPE_COMPOUND]; omega
  rw [if_neg h1, if_neg h2, if_neg h3, if_neg h4, if_neg h5, if_neg h6, if_neg h7,
    if_neg h8, if_neg h9, if_neg h10]

theorem writeTag_unknown (ty : Nat) (nm : List Nat) (d : Data) (len : Int)
    (output : List Nat) (h : ty = 0 ∨ 11 ≤ ty) (hs : IsText nm) (hl : nm.length ≤ 32767) :
    writeTag (.mk ty nm d len) output = some (false, output ++ header ty nm) := by
  rw [writeTag_of_text ty nm d len output hs hl, writeDataContent_unknown ty d len _ h]

theorem writeTag_false_kind (tag : NBTtag) (output bytes : List Nat)
    (h : writeTag tag output = some (false, bytes)) :
    ¬ (1 ≤ tag.TYPE ∧ tag.TYPE ≤ 10) := by
  obtain ⟨ty, nm, d, len⟩ := tag
  rw [writeTag_eq] at h
  cases h1 : strlenInt16 nm 0 with
  | none => rw [h1] at h; cases h
  | some nl =>
    rw [h1] at h
    simp only [] at h
    cases h2 : write (output ++ [ty] ++ objectBytes 2 (htons (toUInt16 nl))) nm nl with
    | none => rw [h2] at h; cases h
    | some o3 =>
      rw [h2] at h
      simp only [] at h
      cases h3 : writeDataContent ty d len o3 with
      | none => rw [h3] at h; cases h
      | some r =>
        obtain ⟨b, o4⟩ := r
        rw [h3] at h
        simp only [Bool.true_and, Option.some.injEq, Prod.mk.injEq] at h
        obtain ⟨hb, _⟩ := h
        subst hb
        exact writeDataContent_false ty d len o3 o4 h3

theorem toUInt16_toInt16 (L : Nat) : toUInt16 (toInt16 (L : Int)) = L % 65536 := by
  unfold toUInt16 toInt16
  omega

theorem write_take (output s : List Nat) (L : Nat) (h : L ≤ s.length) :
    write output s (L : Int) = some (output ++ s.take L) := by
  unfold write
  rw [if_pos ⟨by omega, by omega⟩, Int.toNat_ofNat]

/-- A String tag whose `DATA` points at a live text pointer: header, the 2-byte
big-endian value of the stored length taken modulo 65536, then as many text bytes as
the stored length says. -/
theorem writeTag_string (n str : List Nat) (L : Nat) (output : List Nat)
    (hn : IsText n) (hlen : n.length ≤ 32767) (hL : L ≤ str.length) :
    writeTag (.mk TYPE_STRING n (.cstr (some str)) L) output
      = some (true, output ++ header 8 n ++ bigEndian 2 (L % 65536) ++ str.take L) := by
  rw [writeTag_of_text _ _ _ _ _ hn hlen, writeDataContent_eq]
  simp only [TYPE_STRING, writeStringCase]
  rw [write_take _ _ _ hL, toUInt16_toInt16, htons_bytes]
  simp

theorem eraseName_DATA (t : NBTtag) : (eraseName t).DATA = t.DATA := by
  cases t; rfl

theorem eraseName_ARRAY_LENGTH (t : NBTtag) : (eraseName t).ARRAY_LENGTH = t.ARRAY_LENGTH := by
  cases t; rfl

theorem eraseName_TYPE (t : NBTtag) : (eraseName t).TYPE = t.TYPE := by
  cases t; rfl

theorem writeListElements_eraseName (ty : Nat) (arr : List NBTtag) (k : Nat)
    (output : List Nat) :
    writeListElements ty (arr.map eraseName) k output = writeListElements ty arr k output := by
  induction arr generalizing k output with
  | nil => rfl
  | cons t rest ih =>
    cases k with
    | zero => rw [writeListElements_zero, writeListElements_zero]
    | succ k =>
      rw [List.map_cons, writeListElements_cons, writeListElements_cons, eraseName_DATA,
        eraseName_ARRAY_LENGTH]
      cases writeDataContent ty t.DATA t.ARRAY_LENGTH output with
      | none => rfl
      | some r => exact ih k r.2

theorem writeDataContent_list_eraseName (arr : List NBTtag) (size : Int) (output : List Nat) :
    writeDataContent TYPE_LIST (.tags (arr.map eraseName)) size output
      = writeDataContent TYPE_LIST (.tags arr) size output := by
  rw [writeDataContent_list, writeDataContent_list]
  cases arr with
  | nil => rfl
  | cons first rest =>
    have h := writeListElements_eraseName first.TYPE (first :: rest) size.toNat
      (output ++ [first.TYPE] ++ objectBytes 4 (htonl (toUInt32 size)))
    simp only [List.map_cons, eraseName_TYPE] at h ⊢
    rw [h]

theorem writeTag_list_eraseName (n : List Nat) (arr : List NBTtag) (size : Int)
    (output : List Nat) :
    writeTag (makeListTag n (arr.map eraseName) size) output
      = writeTag (makeListTag n arr size) output := by
  unfold makeListTag
  rw [writeTag_eq, writeTag_eq]
  cases strlenInt16 n 0 with
  | none => rfl
  | some nl =>
    simp only []
    cases write (output ++ [TYPE_LIST] ++ objectBytes 2 (htons (toUInt16 nl))) n nl with
    | none => rfl
    | some o3 =>
      simp only []
      rw [writeDataContent_list_eraseName]

/-! ## Runs on a bounded call stack -/

theorem writeTagOnStack_zero (tag : NBTtag) (output : List Nat) :
    writeTagOnStack 0 tag output = .stackExhausted := by
  cases tag; rfl

theorem writeDataContentOnStack_zero (tagType : Nat) (data : Data) (dataSize : Int)
    (output : List Nat) :
    writeDataContentOnStack 0 tagType data dataSize output = .stackExhausted := rfl

theorem writeTagOnStack_succ (frames TYPE : Nat) (NAME : List Nat) (DATA : Data)
    (ARRAY_LENGTH : Int) (output : List Nat) :
    writeTagOnStack (frames + 1) (.mk TYPE NAME DATA ARRAY_LENGTH) output =
      match strlenInt16 NAME 0 with
      | none => .undefined
      | some nameLength =>
        match write (output ++ [TYPE] ++ objectBytes 2 (htons (toUInt16 nameLength)))
            NAME nameLength with
        | none => .undefined
        | some output3 =>
          match writeDataContentOnStack frames TYPE DATA ARRAY_LENGTH output3 with
          | .stackExhausted => .stackExhausted
          | .undefined => .undefined
          | .returned (r, output4) => .returned (true && r, output4) := rfl

theorem writeDataContentOnStack_succ (frames tagType : Nat) (data : Data) (dataSize : Int)
    (output : List Nat) :
    writeDataContentOnStack (frames + 1) tagType data dataSize output =
    if tagType = TYPE_BYTE then .ofOption (writeByteCase data output)
    else if tagType = TYPE_SHORT then .ofOption (writeShortCase data output)
    else if tagType = TYPE_INT then .ofOption (writeIntCase data output)
    else if tagType = TYPE_LONG then .ofOption (writeLongCase data output)
    else if tagType = TYPE_FLOAT then .ofOption (writeFloatCase data output)
    else if tagType = TYPE_DOUBLE then .ofOption (writeDoubleCase data output)
    else if tagType = TYPE_BYTE_ARRAY then .ofOption (writeByteArrayCase data dataSize output)
    else if tagType = TYPE_STRING then .ofOption (writeStringCase data dataSize output)
    else if tagType = TYPE_LIST then
      if dataSize > 0 then
        match data with
        | .tags data_li =>
          match data_li with
          | [] => .undefined
          | first :: _ =>
            match listLoopOnStack (writeDataContentOnStack frames first.TYPE) data_li
                dataSize.toNat
                (output ++ [first.TYPE] ++ objectBytes 4 (htonl (toUInt32 dataSize))) with
            | .stackExhausted => .stackExhausted
            | .undefined => .undefined
            | .returned output3 => .returned (true, output3)
        | _ => .undefined
      else .returned (true, output)
    else if tagType = TYPE_COMPOUND then
      match data with
      | .tags data_cmp_ptr =>
        match compoundLoopOnStack (writeTagOnStack frames) data_cmp_ptr dataSize.toNat
            output with
        | .stackExhausted => .stackExhausted
        | .undefined => .undefined
        | .returned output1 => .returned (true, output1 ++ [TYPE_END])
      | _ => if dataSize > 0 then .undefined else .returned (true, output ++ [TYPE_END])
    else .returned (false, output) := by
  cases data <;> rfl

theorem writeDataContentOnStack_compound (frames : Nat) (arr : List NBTtag) (dataSize : Int)
    (output : List Nat) :
    writeDataContentOnStack (frames + 1) TYPE_COMPOUND (.tags arr) dataSize output =
      match compoundLoopOnStack (writeTagOnStack frames) arr dataSize.toNat output with
      | .stackExhausted => .stackExhausted
      | .undefined => .undefined
      | .returned output1 => .returned (true, output1 ++ [TYPE_END]) := rfl

theorem writeDataContentOnStack_list (frames : Nat) (arr : List NBTtag) (dataSize : Int)
    (output : List Nat) :
    writeDataContentOnStack (frames + 1) TYPE_LIST (.tags arr) dataSize output =
      if dataSize > 0 then
        match arr with
        | [] => .undefined
        | first :: _ =>
          match listLoopOnStack (writeDataContentOnStack frames first.TYPE) arr
              dataSize.toNat
              (output ++ [first.TYPE] ++ objectBytes 4 (htonl (toUInt32 dataSize))) with
          | .stackExhausted => .stackExhausted
          | .undefined => .undefined
          | .returned output3 => .returned (true, output3)
      else .returned (true, output) := rfl

theorem listLoopOnStack_zero (call : Data → Int → List Nat → Outcome (Bool × List Nat))
    (arr : List NBTtag) (output : List Nat) :
    listLoopOnStack call arr 0 output = .returned output := by
  rcases arr with _ | ⟨⟨_, _, _, _⟩, _⟩ <;> rfl

theorem listLoopOnStack_cons (call : Data → Int → List Nat → Outcome (Bool × List Nat))
    (t : NBTtag) (rest : List NBTtag) (k : Nat) (output : List Nat) :
    listLoopOnStack call (t :: rest) (k + 1) output =
      match call t.DATA t.ARRAY_LENGTH output with
      | .stackExhausted => .stackExhausted
      | .undefined => .undefined
      | .returned (_, output1) => listLoopOnStack call rest k output1 := by
  cases t; rfl

theorem compoundLoopOnStack_zero (call : NBTtag → List Nat → Outcome (Bool × List Nat))
    (arr : List NBTtag) (output : List Nat) :
    compoundLoopOnStack call arr 0 output = .returned output := by
  cases arr <;> rfl

theorem compoundLoopOnStack_cons (call : NBTtag → List Nat → Outcome (Bool × List Nat))
    (t : NBTtag) (rest : List NBTtag) (k : Nat) (output : List Nat) :
    compoundLoopOnStack call (t :: rest) (k + 1) output =
      match call t output with
      | .stackExhausted => .stackExhausted
      | .undefined => .undefined
      | .returned (_, output1) => compoundLoopOnStack call rest k output1 := rfl

/-- With an empty name the header is the kind byte and 00 00. -/
theorem writeTagOnStack_noName (frames ty : Nat) (d : Data) (len : Int) (output : List Nat) :
    writeTagOnStack (frames + 1) (.mk ty [] d len) output =
      match writeDataContentOnStack frames ty d len (output ++ [ty, 0, 0]) with
      | .stackExhausted => .stackExhausted
      | .undefined => .undefined
      | .returned (r, output4) => .returned (true && r, output4) := by
  have e : output ++ [ty] ++ objectBytes 2 (htons (toUInt16 0)) ++ List.take (Int.toNat 0) []
      = output ++ [ty, 0, 0] := by
    have h : objectBytes 2 (htons (toUInt16 0)) = [0, 0] := by decide
    rw [h]; simp
  rw [← e]
  rfl

theorem chainBytes_succ (depth : Nat) :
    chainBytes (depth + 1) = [0x0A, 0x00, 0x00] ++ chainBytes depth ++ [0x00] := by
  unfold chainBytes
  rw [List.replicate_succ (n := depth), List.replicate_succ' (n := depth)]
  simp

theorem compoundChain_succ (d : Nat) :
    compoundChain (d + 1) = .mk TYPE_COMPOUND [] (.tags [compoundChain d]) 1 := rfl

/-- With room for two frames per level the chain of depth `d + 1` is written whole. -/
theorem writeTagOnStack_chain_returned (d : Nat) :
    ∀ (frames : Nat) (output : List Nat), 2 * (d + 1) ≤ frames →
      writeTagOnStack frames (compoundChain d) output
        = .returned (true, output ++ chainBytes (d + 1)) := by
  induction d with
  | zero =>
    intro frames output h
    obtain ⟨s, rfl⟩ : ∃ s, frames = s + 1 + 1 := ⟨frames - 2, by omega⟩
    have e : compoundChain 0 = .mk TYPE_COMPOUND [] (.tags []) 0 := rfl
    rw [e, writeTagOnStack_noName, writeDataContentOnStack_compound]
    have h0 : ((0 : Int)).toNat = 0 := rfl
    rw [h0, compoundLoopOnStack_zero]
    simp [chainBytes]
  | succ d ih =>
    intro frames output h
    obtain ⟨s, rfl⟩ : ∃ s, frames = s + 1 + 1 := ⟨frames - 2, by omega⟩
    have h1 : ((1 : Int)).toNat = 1 := rfl
    rw [compoundChain_succ, writeTagOnStack_noName, writeDataContentOnStack_compound, h1,
      compoundLoopOnStack_cons, ih s _ (by omega)]
    simp only [compoundLoopOnStack_zero]
    rw [chainBytes_succ (d + 1)]
    simp

/-- With less room than two frames per level the chain of depth `d + 1` exhausts the
stack. -/
theorem writeTagOnStack_chain_exhausted (d : Nat) :
    ∀ (frames : Nat) (output : List Nat), frames < 2 * (d + 1) →
      writeTagOnStack frames (compoundChain d) output = .stackExhausted := by
  induction d with
  | zero =>
    intro frames output h
    rcases frames with _ | _ | s
    · exact writeTagOnStack_zero _ _
    · have e : compoundChain 0 = .mk TYPE_COMPOUND [] (.tags []) 0 := rfl
      rw [e, writeTagOnStack_noName, writeDataContentOnStack_zero]
    · omega
  | succ d ih =>
    intro frames output h
    rcases frames with _ | _ | s
    · exact writeTagOnStack_zero _ _
    · rw [compoundChain_succ, writeTagOnStack_noName, writeDataContentOnStack_zero]
    · have h1 : ((1 : Int)).toNat = 1 := rfl
      rw [compoundChain_succ, writeTagOnStack_noName, writeDataContentOnStack_compound, h1,
        compoundLoopOnStack_cons, ih s _ (by omega)]

theorem listLoopOnStack_refines (ty : Nat)
    (call : Data → Int → List Nat → Outcome (Bool × List Nat))
    (hcall : ∀ d len o, call d len o = .stackExhausted
      ∨ call d len o = .ofOption (writeDataContent ty d len o)) :
    ∀ (arr : List NBTtag) (k : Nat) (output : List Nat),
      listLoopOnStack call arr k output = .stackExhausted
      ∨ listLoopOnStack call arr k output = .ofOption (writeListElements ty arr k output) := by
  intro arr
  induction arr with
  | nil =>
    intro k output
    cases k with
    | zero => right; rfl
    | succ k => right; rfl
  | cons t rest ih =>
    intro k output
    cases k with
    | zero => right; rw [listLoopOnStack_zero, writeListElements_zero]; rfl
    | succ k =>
      rw [listLoopOnStack_cons, writeListElements_cons]
      rcases hcall t.DATA t.ARRAY_LENGTH output with h | h
      · left; rw [h]
      · rw [h]
        cases writeDataContent ty t.DATA t.ARRAY_LENGTH output with
        | none => right; rfl
        | some r => exact ih k r.2

theorem compoundLoopOnStack_refines
    (call : NBTtag → List Nat → Outcome (Bool × List Nat))
    (hcall : ∀ t o, call t o = .stackExhausted ∨ call t o = .ofOption (writeTag t o)) :
    ∀ (arr : List NBTtag) (k : Nat) (output : List Nat),
      compoundLoopOnStack call arr k output = .stackExhausted
      ∨ compoundLoopOnStack call arr k output
          = .ofOption (writeCompoundElements arr k output) := by
  intro arr
  induction arr with
  | nil =>
    intro k output
    cases k with
    | zero => right; rfl
    | succ k => right; rfl
  | cons t rest ih =>
    intro k output
    cases k with
    | zero => right; rw [compoundLoopOnStack_zero, writeCompoundElements_zero]; rfl
    | succ k =>
      rw [compoundLoopOnStack_cons, writeCompoundElements_cons]
      rcases hcall t output with h | h
      · left; rw [h]
      · rw [h]
        cases writeTag t output with
        | none => right; rfl
        | some r => exact ih k r.2

/-- A run on a bounded stack either exhausts the stack or ends as the writers above say. -/
theorem onStack_refines (frames : Nat) :
    (∀ (tag : NBTtag) (output : List Nat),
      writeTagOnStack frames tag output = .stackExhausted
      ∨ writeTagOnStack frames tag output = .ofOption (writeTag tag output))
    ∧ (∀ (ty : Nat) (d : Data) (len : Int) (output : List Nat),
      writeDataContentOnStack frames ty d len output = .stackExhausted
      ∨ writeDataContentOnStack frames ty d len output
          = .ofOption (writeDataContent ty d len output)) := by
  induction frames with
  | zero =>
    exact ⟨fun tag output => Or.inl (writeTagOnStack_zero tag output),
      fun ty d len output => Or.inl rfl⟩
  | succ s ih =>
    refine ⟨?_, ?_⟩
    · rintro ⟨ty, nm, d, len⟩ output
      rw [writeTagOnStack_succ, writeTag_eq]
      cases strlenInt16 nm 0 with
      | none => right; rfl
      | some nl =>
        simp only []
        cases write (output ++ [ty] ++ objectBytes 2 (htons (toUInt16 nl))) nm nl with
        | none => right; rfl
        | some o3 =>
          simp only []
          rcases ih.2 ty d len o3 with h | h
          · left; rw [h]
          · rw [h]
            cases writeDataContent ty d len o3 with
            | none => right; rfl
            | some r => right; rfl
    · intro ty d len output
      by_cases h9 : ty = TYPE_LIST
      · subst h9
        cases d with
        | tags arr =>
          rw [writeDataContentOnStack_list, writeDataContent_list]
          by_cases hpos : len > 0
          · rw [if_pos hpos, if_pos hpos]
            cases arr with
            | nil => right; rfl
            | cons first rest =>
              simp only []
              rcases listLoopOnStack_refines first.TYPE _ (ih.2 first.TYPE) (first :: rest)
                len.toNat (output ++ [first.TYPE] ++ objectBytes 4 (htonl (toUInt32 len)))
                with h | h
              · left; rw [h]
              · rw [h]
                cases writeListElements first.TYPE (first :: rest) len.toNat
                  (output ++ [first.TYPE] ++ objectBytes 4 (htonl (toUInt32 len))) with
                | none => right; rfl
                | some o => right; rfl
          · rw [if_neg hpos, if_neg hpos]; right; rfl
        | _ =>
          right
          show (if len > 0 then Outcome.undefined else Outcome.returned (true, output))
            = Outcome.ofOption (if len > 0 then none else some (true, output))
          split_ifs <;> rfl
      · by_cases h10 : ty = TYPE_COMPOUND
        · subst h10
          cases d with
          | tags arr =>
            rw [writeDataContentOnStack_compound, writeDataContent_compound]
            rcases compoundLoopOnStack_refines _ ih.1 arr len.toNat output with h | h
            · left; rw [h]
            · rw [h]
              cases writeCompoundElements arr len.toNat output with
              | none => right; rfl
              | some o => right; rfl
          | _ =>
            right
            show (if len > 0 then Outcome.undefined
                else Outcome.returned (true, output ++ [TYPE_END]))
              = Outcome.ofOption (if len > 0 then none else some (true, output ++ [TYPE_END]))
            split_ifs <;> rfl
        · right
          rw [writeDataContentOnStack_succ, writeDataContent_eq]
          simp only [if_neg h9, if_neg h10, apply_ite Outcome.ofOption]
          rfl

/-! ## Claims, continued -/

/-- C11 (failing input). For a text of 32768 bytes, a length that fits in a signed
32-bit count, `makeStringTag` returns no tag with stored length 32768: its `int16_t`
counter wraps to -32768 after index 32767 and the next read is before the start of
the text. -/
theorem makeStringTag_fails_at_32768 :
    ¬ ∃ tag, makeStringTag [115] (List.replicate 32768 97) = some tag
        ∧ tag.TYPE = 8 ∧ tag.ARRAY_LENGTH = 32768 := by
  rintro ⟨tag, h, _⟩
  rw [makeStringTag_long [115] (List.replicate 32768 97) (isText_replicate _ _ (by decide))
    (le_of_eq (List.length_replicate 32768 97).symm)] at h
  cases h

/-- Byte layout of the chain as the writers without stack bound give it: the chain of
`d + 1` Compound tags with empty names nested one inside the other is written as
`d + 1` copies of the header 0A 00 00 followed by `d + 1` End bytes 00, with result
`true`. -/
theorem compound_chain_layout (d : Nat) :
    writeTag (compoundChain d) []
      = some (true, (List.replicate (d + 1) [0x0A, 0x00, 0x00]).flatten
                      ++ List.replicate (d + 1) 0x00) := by
  induction d with
  | zero => decide
  | succ d ih =>
    have e : compoundChain (d + 1) = .mk TYPE_COMPOUND [] (.tags [compoundChain d]) 1 := rfl
    have h1 : ((1 : Int)).toNat = 1 := rfl
    have hs := writeTag_shift (compoundChain d) (header TYPE_COMPOUND []) []
    rw [List.append_nil] at hs
    rw [e, writeTag_of_text _ _ _ _ _ (by decide) (by decide), writeDataContent_compound, h1,
      writeCompoundElements_cons, List.nil_append, hs, ih]
    simp only [shift, Option.map_some', writeCompoundElements_zero, header, bigEndian,
      List.length_nil, TYPE_COMPOUND, TYPE_END]
    rw [List.replicate_succ (n := d + 1), List.replicate_succ' (n := d + 1)]
    simp

/-- C12 (counterexample). On a call stack with room for 100000 nested encoder calls the
chain of depth 100000 does not return: `writeTag` and `writeDataContent` call each other
once per level, 200000 nested calls in all, and the stack is exhausted.  The same
happens on every stack: no stack size serves every depth. -/
theorem chain_exhausts_stack :
    writeTagOnStack 100000 (compoundChain 99999) [] = .stackExhausted
      ∧ ¬ ∃ frames, ∀ d, writeTagOnStack frames (compoundChain d) []
            = .returned (true, (List.replicate (d + 1) [0x0A, 0x00, 0x00]).flatten
                                  ++ List.replicate (d + 1) 0x00) := by
  refine ⟨writeTagOnStack_chain_exhausted 99999 100000 [] (by decide), ?_⟩
  rintro ⟨frames, h⟩
  have e := writeTagOnStack_chain_exhausted frames frames [] (by omega)
  rw [h frames] at e
  cases e

/-- C12 (amended). On a call stack with room for at least two nested encoder calls per
level, the chain of depth `d + 1` is written as `d + 1` copies of the header 0A 00 00
followed by `d + 1` End bytes 00 and the call returns `true`; on a smaller stack the
run ends in stack exhaustion and no call returns. -/
theorem compound_chain_on_stack (frames d : Nat) :
    (2 * (d + 1) ≤ frames →
      writeTagOnStack frames (compoundChain d) []
        = .returned (true, (List.replicate (d + 1) [0x0A, 0x00, 0x00]).flatten
                              ++ List.replicate (d + 1) 0x00))
    ∧ (frames < 2 * (d + 1) →
      writeTagOnStack frames (compoundChain d) [] = .stackExhausted) := by
  refine ⟨fun h => ?_, fun h => writeTagOnStack_chain_exhausted d frames [] h⟩
  rw [writeTagOnStack_chain_returned d frames [] h]
  rfl

/-- Depth 1000: with room for 2000 nested calls the 1000 headers and the 1000 End bytes
are written; with room for 1999 the stack is exhausted. -/
theorem compound_chain_on_stack_witness :
    writeTagOnStack 2000 (compoundChain 999) []
        = .returned (true, (List.replicate 1000 [0x0A, 0x00, 0x00]).flatten
                              ++ List.replicate 1000 0x00)
      ∧ writeTagOnStack 1999 (compoundChain 999) [] = .stackExhausted :=
  ⟨(compound_chain_on_stack 2000 999).1 (by decide),
   (compound_chain_on_stack 1999 999).2 (by decide)⟩

/-- C13. A List tag whose count is 0 is written as its header alone (0x09, the 2-byte
name length, the name): no element-kind byte, no count; the call returns `true`. -/
theorem empty_list_encoding (n : List Nat) (data : Data)
    (hn : IsText n) (hlen : n.length ≤ 32767) :
    writeTag (.mk TYPE_LIST n data 0) [] = some (true, [0x09] ++ bigEndian 2 n.length ++ n) := by
  rw [writeTag_of_text _ _ _ _ _ hn hlen, writeDataContent_eq]
  simp [header]

/-- The empty List "nums" made by `makeListTag` is written as 09 00 04 'n' 'u' 'm' 's'. -/
theorem empty_list_encoding_witness :
    writeTag (makeListTag [110, 117, 109, 115] [] 0) []
      = some (true, [0x09, 0x00, 0x04, 110, 117, 109, 115]) :=
  (empty_list_encoding [110, 117, 109, 115] (.tags []) (by decide) (by decide)).trans
    (by decide)

/-- C14. Two List tags that differ only in the `NAME` fields of their direct elements are
written alike: same bytes, same result. -/
theorem list_element_names_unused (n : List Nat) (arr1 arr2 : List NBTtag) (size : Int)
    (output : List Nat) (h : arr1.map eraseName = arr2.map eraseName) :
    writeTag (makeListTag n arr1 size) output = writeTag (makeListTag n arr2 size) output := by
  rw [← writeTag_list_eraseName n arr1, ← writeTag_list_eraseName n arr2, h]

/-- The List "l" of Int 1 named "a" and Int 2 named "b" and the List "l" of Int 1 named
"x" and Int 2 without name are both written as 09 00 01 'l' 03 00 00 00 02 and the two
payloads. -/
theorem list_element_names_unused_witness :
    writeTag (makeListTag [108] [makeIntTag [97] 1, makeIntTag [98] 2] 2) []
        = writeTag (makeListTag [108] [makeIntTag [120] 1, makeIntTag [] 2] 2) []
      ∧ writeTag (makeListTag [108] [makeIntTag [97] 1, makeIntTag [98] 2] 2) []
        = some (true, [9, 0, 1, 108, 3, 0, 0, 0, 2, 0, 0, 0, 1, 0, 0, 0, 2]) :=
  ⟨list_element_names_unused [108] [makeIntTag [97] 1, makeIntTag [98] 2]
      [makeIntTag [120] 1, makeIntTag [] 2] 2 [] rfl,
   by decide⟩

/-- C15 (counterexample). In the Compound "c" holding a tag of kind 11 named "x" and then
the Byte "b" = 7, the bytes of the later sibling (01 00 01 'b' 07) and the End marker
(00) are written after the header of the failing tag. -/
theorem unknown_kind_child_not_terminal :
    writeTag (makeCompoundTag [99] [.mk 11 [120] (.u8 0) 1, makeByteTag [98] 7] 2) []
      = some (true, [10, 0, 1, 99] ++ [11, 0, 1, 120] ++ [1, 0, 1, 98, 7] ++ [0]) := by
  decide

/-- C15 (amended). A child of unknown kind in a Compound contributes its header and no
payload; the encoder goes on, and the complete encodings of the later siblings and the
End byte of the Compound follow that header. -/
theorem unknown_kind_child_continues (n : List Nat) (pre post : List NBTtag)
    (ty : Nat) (m : List Nat) (data : Data) (len : Int)
    (hn : IsText n) (hlen : n.length ≤ 32767)
    (hty : ty = 0 ∨ 11 ≤ ty) (hm : IsText m) (hmlen : m.length ≤ 32767)
    (hpre : ∀ c ∈ pre, (writeTag c []).isSome)
    (hpost : ∀ c ∈ post, (writeTag c []).isSome) :
    (writeTag (makeCompoundTag n (pre ++ [NBTtag.mk ty m data len] ++ post)
        (pre ++ [NBTtag.mk ty m data len] ++ post).length) []).map Prod.snd
      = some (header 0x0A n ++ (pre.map encoding).flatten ++ header ty m
                ++ (post.map encoding).flatten ++ [0x00]) := by
  have hbad : writeTag (.mk ty m data len) [] = some (false, header ty m) := by
    rw [writeTag_unknown ty m data len [] hty hm hmlen]; rfl
  have hall : ∀ c ∈ pre ++ [NBTtag.mk ty m data len] ++ post, (writeTag c []).isSome := by
    intro c hc
    simp only [List.mem_append, List.mem_singleton] at hc
    rcases hc with (hc | hc) | hc
    · exact hpre c hc
    · rw [hc, hbad]; rfl
    · exact hpost c hc
  have henc : encoding (.mk ty m data len) = header ty m := by
    simp only [encoding, hbad]
  unfold makeCompoundTag
  rw [writeTag_of_text _ _ _ _ _ hn hlen, writeDataContent_compound, Int.toNat_ofNat,
    writeCompoundElements_all _ _ hall]
  simp [henc]

/-- The Compound "c" of the counterexample: header, header of the kind-11 child, the
complete Byte "b", End. -/
theorem unknown_kind_child_continues_witness :
    (writeTag (makeCompoundTag [99] [.mk 11 [120] (.u8 0) 1, makeByteTag [98] 7] 2) []).map
        Prod.snd
      = some [10, 0, 1, 99, 11, 0, 1, 120, 1, 0, 1, 98, 7, 0] :=
  (unknown_kind_child_continues [99] [] [makeByteTag [98] 7] 11 [120] (.u8 0) 1
    (by decide) (by decide) (by decide) (by decide) (by decide) (by decide) (by decide)).trans
    (by decide)

/-- C16 (counterexample). For the String tag with stored length 65536 over a text of
65536 bytes the count field is 00 00, value 0, and 65536 content bytes follow it. -/
theorem string_count_differs_at_65536 :
    writeTag (.mk TYPE_STRING [] (.cstr (some (List.replicate 65536 97))) 65536) []
        = some (true, [8, 0, 0] ++ [0, 0] ++ List.replicate 65536 97)
      ∧ fromBigEndian [0, 0] = 0
      ∧ (List.replicate 65536 97).length = 65536 := by
  refine ⟨?_, by decide, List.length_replicate _ _⟩
  have hL : 65536 ≤ (List.replicate 65536 97).length :=
    le_of_eq (List.length_replicate 65536 97).symm
  have h := writeTag_string [] (List.replicate 65536 97) 65536 [] (by decide) (by decide) hL
  have ht : List.take 65536 (List.replicate 65536 97) = List.replicate 65536 97 := by
    rw [List.take_replicate, Nat.min_self]
  rw [ht] at h
  exact h

/-- C16 (amended). For a String tag with stored length `L` over a live text of at least
`L` bytes, the count field is `L mod 65536` in big-endian order and the content written
after it has `L` bytes, the first `L` bytes of the text; for `L < 65536` that number
is the value of the count field. -/
theorem string_count_and_content (n str : List Nat) (L : Nat)
    (hn : IsText n) (hlen : n.length ≤ 32767) (hL : L ≤ str.length) :
    writeTag (.mk TYPE_STRING n (.cstr (some str)) L) []
        = some (true, header 8 n ++ bigEndian 2 (L % 65536) ++ str.take L)
      ∧ fromBigEndian (bigEndian 2 (L % 65536)) = L % 65536
      ∧ (str.take L).length = L
      ∧ (L < 65536 → (str.take L).length = fromBigEndian (bigEndian 2 (L % 65536))) := by
  have h2 : fromBigEndian (bigEndian 2 (L % 65536)) = L % 65536 := by
    rw [fromBigEndian_bigEndian]
    exact Nat.mod_eq_of_lt (by omega)
  have h3 : (str.take L).length = L := by
    rw [List.length_take]; omega
  refine ⟨?_, h2, h3, ?_⟩
  · rw [writeTag_string n str L [] hn hlen hL]; simp
  · intro hsmall
    rw [h2, h3, Nat.mod_eq_of_lt hsmall]

/-- The String "s" = "hi" read through a live pointer: 08 00 01 's', count 00 02, then
the two bytes 'h' 'i'. -/
theorem string_count_and_content_witness :
    writeTag (.mk TYPE_STRING [115] (.cstr (some [104, 105])) 2) []
        = some (true, [8, 0, 1, 115, 0, 2, 104, 105])
      ∧ (List.take 2 [104, 105]).length = fromBigEndian (bigEndian 2 (2 % 65536)) :=
  ⟨(string_count_and_content [115] [104, 105] 2 (by decide) (by decide) (by decide)).1.trans
      (by decide),
   (string_count_and_content [115] [104, 105] 2 (by decide) (by decide) (by decide)).2.2.2
      (by decide)⟩

/-- C17. `writeTag` only appends: from a stream holding `p`, writing `t1` and then `t2`
leaves `p`, the bytes of `t1`, the bytes of `t2`, where the bytes and the result of
each tag are those of writing it alone to an empty stream. -/
theorem writeTag_appends (p : List Nat) (t1 t2 : NBTtag) (r1 r2 : Bool) (b1 b2 : List Nat)
    (h1 : writeTag t1 [] = some (r1, b1)) (h2 : writeTag t2 [] = some (r2, b2)) :
    writeTag t1 p = some (r1, p ++ b1)
      ∧ writeTag t2 (p ++ b1) = some (r2, p ++ b1 ++ b2) := by
  have e1 := writeTag_shift t1 p []
  have e2 := writeTag_shift t2 (p ++ b1) []
  rw [List.append_nil] at e1 e2
  rw [e1, e2, h1, h2]
  exact ⟨rfl, rfl⟩

/-- From a stream holding FF, the Byte "b" = 7 and then the Short "hp" = 100. -/
theorem writeTag_appends_witness :
    writeTag (makeByteTag [98] 7) [255] = some (true, [255] ++ [1, 0, 1, 98, 7])
      ∧ writeTag (makeShortTag [104, 112] 100) ([255] ++ [1, 0, 1, 98, 7])
          = some (true, [255] ++ [1, 0, 1, 98, 7] ++ [2, 0, 2, 104, 112, 0, 100]) :=
  writeTag_appends [255] (makeByteTag [98] 7) (makeShortTag [104, 112] 100) true true
    [1, 0, 1, 98, 7] [2, 0, 2, 104, 112, 0, 100] (by decide) (by decide)

/-- C18. A tag whose own kind is 0 or above 10 and whose name has at most 32767 bytes
makes `writeTag` return `false` after writing exactly the header (kind byte, 2-byte
big-endian name length, name); and `writeTag` returns `false` only for a tag whose own
kind is outside 1 .. 10. -/
theorem unknown_kind_encoding :
    (∀ (ty : Nat) (n : List Nat) (data : Data) (len : Int),
        (ty = 0 ∨ 11 ≤ ty) → IsText n → n.length ≤ 32767 →
        writeTag (.mk ty n data len) []
          = some (false, [ty] ++ bigEndian 2 n.length ++ n))
    ∧ (∀ (tag : NBTtag) (output bytes : List Nat),
        writeTag tag output = some (false, bytes) → ¬ (1 ≤ tag.TYPE ∧ tag.TYPE ≤ 10)) := by
  refine ⟨?_, writeTag_false_kind⟩
  intro ty n data len h hs hl
  rw [writeTag_unknown ty n data len [] h hs hl]
  simp [header]

/-- The tag of kind 0 (End) named "x" is written as 00 00 01 'x' with result `false`,
and the tag of kind 255 named "x" as FF 00 01 'x' with result `false`; 255 is not a
kind in 1 .. 10. -/
theorem unknown_kind_encoding_witness :
    writeTag (.mk 0 [120] (.u8 0) 1) [] = some (false, [0, 0, 1, 120])
      ∧ writeTag (.mk 255 [120] (.tags []) 0) [] = some (false, [255, 0, 1, 120])
      ∧ ¬ (1 ≤ (NBTtag.mk 255 [120] (.tags []) 0).TYPE
            ∧ (NBTtag.mk 255 [120] (.tags []) 0).TYPE ≤ 10) :=
  ⟨(unknown_kind_encoding.1 0 [120] (.u8 0) 1 (by decide) (by decide) (by decide)).trans
      (by decide),
   (unknown_kind_encoding.1 255 [120] (.tags []) 0 (by decide) (by decide) (by decide)).trans
      (by decide),
   unknown_kind_encoding.2 (.mk 255 [120] (.tags []) 0) [] [255, 0, 1, 120] (by decide)⟩

end NBT
